import Mathlib

/-!
Verification development for the `vscode-api` language-server core:
a shallow embedding of the lexer (`src/server/lexer.ts`), parser
(`src/server/parser.ts`), symbol collector and symbol table
(`src/server/symbols.ts`), and the pure cores of `validateTextDocument`,
`indexDocument`, `saveCacheToFile` and `loadCacheFromFile`
(`src/server/server.ts`), together with theorems about the behaviour of
these functions.

Conventions of the embedding:
* JavaScript strings are `String` / `List Char`; numeric token payloads are
  kept as their raw lexemes (they are only ever used inside human-readable
  detail strings, never computed with).
* JavaScript `Map` objects are association lists with `Map.set` semantics:
  setting an existing key replaces the value in place, setting a fresh key
  appends it (this preserves the iteration order the code relies on).
* Loops of the source are either structural recursion on the remaining
  input or fuel-indexed recursion where the fuel is an upper bound proved
  (or stated as a theorem) to be sufficient, so that every definition is
  executable by the kernel.
-/

namespace VscodeApi

/-! ## Lexer (`src/server/lexer.ts`) -/

/-- Token kinds, mirroring `enum TokenType`.  The `valueString` below holds
the TypeScript enum member's string value. -/
inductive TokenType where
  | TYPEDEF | STRUCT | API | ENUM | INPUT | OUTPUT | EXTRACT | EXTENDS
  | IMPLEMENTS | PATCH | APILIST | INCLUDE | SET
  | INT | LONG | UINT | ULONG | BOOL | FLOAT | DOUBLE | STRING
  | GET | SET_CONST
  | IDENTIFIER | NUMBER | STRING_LITERAL
  | LEFT_BRACE | RIGHT_BRACE | LEFT_PAREN | RIGHT_PAREN
  | LEFT_BRACKET | RIGHT_BRACKET | SEMICOLON | COMMA | EQUALS
  | LINE_COMMENT | BLOCK_COMMENT | BUILTIN_COMMENT
  | EOF | NEWLINE | WHITESPACE
  deriving DecidableEq, Repr

/-- The string value of each `TokenType` enum member (used by the parser's
error messages, which interpolate `current.type`). -/
def TokenType.valueString : TokenType → String
  | .TYPEDEF => "typedef" | .STRUCT => "struct" | .API => "api"
  | .ENUM => "enum" | .INPUT => "input" | .OUTPUT => "output"
  | .EXTRACT => "extract" | .EXTENDS => "extends"
  | .IMPLEMENTS => "implements" | .PATCH => "patch" | .APILIST => "apilist"
  | .INCLUDE => "#include" | .SET => "#set"
  | .INT => "int" | .LONG => "long" | .UINT => "uint" | .ULONG => "ulong"
  | .BOOL => "bool" | .FLOAT => "float" | .DOUBLE => "double"
  | .STRING => "string" | .GET => "GET" | .SET_CONST => "SET"
  | .IDENTIFIER => "identifier" | .NUMBER => "number"
  | .STRING_LITERAL => "string_literal"
  | .LEFT_BRACE => "\x7b" | .RIGHT_BRACE => "\x7d"
  | .LEFT_PAREN => "(" | .RIGHT_PAREN => ")"
  | .LEFT_BRACKET => "[" | .RIGHT_BRACKET => "]"
  | .SEMICOLON => ";" | .COMMA => "," | .EQUALS => "="
  | .LINE_COMMENT => "line_comment" | .BLOCK_COMMENT => "block_comment"
  | .BUILTIN_COMMENT => "builtin_comment"
  | .EOF => "eof" | .NEWLINE => "newline" | .WHITESPACE => "whitespace"

/-- `interface Token` with the `end` byte offset rendered as `«end»`. -/
structure Token where
  type : TokenType
  value : String
  line : Nat
  column : Nat
  start : Nat
  «end» : Nat
  deriving DecidableEq, Repr

/-- The lexer's cursor bookkeeping: `position` (byte offset), 1-based
`line` and `column`.  The remaining input is threaded separately as a
`List Char` so that the scanning loops are structural recursion. -/
structure LexPos where
  position : Nat
  line : Nat
  column : Nat
  deriving DecidableEq, Repr

/-- `ApiLexer.advance` restricted to its position/line/column update; the
consumed character is the head of the remaining input. -/
def stepPos (p : LexPos) (c : Char) : LexPos :=
  if c = '\n' then { position := p.position + 1, line := p.line + 1, column := 1 }
  else { position := p.position + 1, line := p.line, column := p.column + 1 }

/-- The character class of the JavaScript regex `/\s/` on the characters
this DSL meets (ASCII whitespace plus NBSP). -/
def isJsSpace (c : Char) : Bool :=
  c = ' ' ∨ c = '\t' ∨ c = '\n' ∨ c = '\r' ∨ c = '\x0b' ∨ c = '\x0c' ∨ c = ' '

/-- `/[0-9]/` -/
def isDigitCh (c : Char) : Bool := '0' ≤ c ∧ c ≤ '9'

/-- `/[0-9a-fA-F]/` -/
def isHexDigitCh (c : Char) : Bool :=
  isDigitCh c ∨ ('a' ≤ c ∧ c ≤ 'f') ∨ ('A' ≤ c ∧ c ≤ 'F')

/-- `/[a-zA-Z_#]/` — the characters that start an identifier read. -/
def isIdentStart (c : Char) : Bool :=
  ('a' ≤ c ∧ c ≤ 'z') ∨ ('A' ≤ c ∧ c ≤ 'Z') ∨ c = '_' ∨ c = '#'

/-- `/[a-zA-Z0-9_]/` — the characters that continue an identifier. -/
def isIdentCh (c : Char) : Bool :=
  ('a' ≤ c ∧ c ≤ 'z') ∨ ('A' ≤ c ∧ c ≤ 'Z') ∨ isDigitCh c ∨ c = '_'

/-- `ApiLexer.skipWhitespace`. -/
def skipWhitespace : List Char → LexPos → List Char × LexPos
  | [], p => ([], p)
  | c :: r, p => if isJsSpace c then skipWhitespace r (stepPos p c) else (c :: r, p)

/-- A greedy scan `while (pred(currentChar))`, accumulating the consumed
characters; shared shape of the digit/hex/identifier loops of the lexer. -/
def readWhile (pred : Char → Bool) : List Char → LexPos → String → String × List Char × LexPos
  | [], p, acc => (acc, [], p)
  | c :: r, p, acc =>
    if pred c then readWhile pred r (stepPos p c) (acc.push c)
    else (acc, c :: r, p)

/-- The body loop of `ApiLexer.readString` (after the opening quote). -/
def readStringLoop : List Char → LexPos → String → String × List Char × LexPos
  | [], p, acc => (acc, [], p)
  | c :: r, p, acc =>
    if c = '"' then (acc, c :: r, p)
    else if c = '\\' then
      match r with
      | [] => (acc, [], stepPos p c)
      | c2 :: r2 => readStringLoop r2 (stepPos (stepPos p c) c2) (acc.push c2)
    else readStringLoop r (stepPos p c) (acc.push c)

/-- The body loop of `ApiLexer.readBlockComment` (after the opening),
ended by `*/`. -/
def readBlockLoop : List Char → LexPos → String → String × List Char × LexPos
  | [], p, acc => (acc, [], p)
  | c :: r, p, acc =>
    if c = '*' ∧ r.head? = some '/' then
      (acc, r.tail, stepPos (stepPos p c) '/')
    else readBlockLoop r (stepPos p c) (acc.push c)

/-- The body loop of `ApiLexer.readBuiltinComment`, ended by `]]`. -/
def readBuiltinLoop : List Char → LexPos → String → String × List Char × LexPos
  | [], p, acc => (acc, [], p)
  | c :: r, p, acc =>
    if c = ']' ∧ r.head? = some ']' then
      (acc, r.tail, stepPos (stepPos p c) ']')
    else readBuiltinLoop r (stepPos p c) (acc.push c)

/-- The line-comment loop: consume until a newline (exclusive). -/
def readLineLoop : List Char → LexPos → String → String × List Char × LexPos
  | [], p, acc => (acc, [], p)
  | c :: r, p, acc =>
    if c = '\n' then (acc, c :: r, p)
    else readLineLoop r (stepPos p c) (acc.push c)

/-- The keyword map of `ApiLexer` (`private keywords`). -/
def keywordLookup (s : String) : TokenType :=
  if s = "typedef" then .TYPEDEF else if s = "struct" then .STRUCT
  else if s = "api" then .API else if s = "enum" then .ENUM
  else if s = "input" then .INPUT else if s = "output" then .OUTPUT
  else if s = "extract" then .EXTRACT else if s = "extends" then .EXTENDS
  else if s = "implements" then .IMPLEMENTS else if s = "patch" then .PATCH
  else if s = "apilist" then .APILIST else if s = "#include" then .INCLUDE
  else if s = "#set" then .SET else if s = "int" then .INT
  else if s = "long" then .LONG else if s = "uint" then .UINT
  else if s = "ulong" then .ULONG else if s = "bool" then .BOOL
  else if s = "float" then .FLOAT else if s = "double" then .DOUBLE
  else if s = "string" then .STRING else if s = "GET" then .GET
  else if s = "SET" then .SET_CONST
  else .IDENTIFIER

/-- The single-character token kinds of the final `switch`; every other
character falls to the default branch and becomes an `IDENTIFIER`. -/
def singleCharType (c : Char) : TokenType :=
  if c = '\x7b' then .LEFT_BRACE else if c = '\x7d' then .RIGHT_BRACE
  else if c = '(' then .LEFT_PAREN else if c = ')' then .RIGHT_PAREN
  else if c = '[' then .LEFT_BRACKET else if c = ']' then .RIGHT_BRACKET
  else if c = ';' then .SEMICOLON else if c = ',' then .COMMA
  else if c = '=' then .EQUALS
  else .IDENTIFIER

/-- `ApiLexer.nextToken`: skip whitespace, then scan one token.  Returns the
token together with the rest of the input and the updated cursor. -/
def nextToken (input : List Char) (pos : LexPos) : Token × List Char × LexPos :=
  match skipWhitespace input pos with
  | ([], p) =>
    ({ type := .EOF, value := "", line := p.line, column := p.column,
       start := p.position, «end» := p.position }, [], p)
  | (c :: r, p) =>
    if c = '"' then
      -- readString: skip the opening quote, scan, skip the closing quote
      let (value, r1, p1) := readStringLoop r (stepPos p c) ""
      let (r2, p2) := match r1 with
        | '"' :: rr => (rr, stepPos p1 '"')
        | other => (other, p1)
      ({ type := .STRING_LITERAL, value := value, line := p.line,
         column := p.column, start := p.position, «end» := p2.position }, r2, p2)
    else if isDigitCh c then
      -- readNumber (value kept as the raw lexeme)
      if c = '0' ∧ (r.head? = some 'x' ∨ r.head? = some 'X') then
        let x := r.head?.getD 'x'
        let (value, r1, p1) := readWhile isHexDigitCh r.tail
          (stepPos (stepPos p c) x) (("".push c).push x)
        ({ type := .NUMBER, value := value, line := p.line, column := p.column,
           start := p.position, «end» := p1.position }, r1, p1)
      else
        let (v1, r1, p1) := readWhile isDigitCh (c :: r) p ""
        match r1 with
        | '.' :: r2 =>
          let (v2, r3, p3) := readWhile isDigitCh r2 (stepPos p1 '.') (v1.push '.')
          ({ type := .NUMBER, value := v2, line := p.line, column := p.column,
             start := p.position, «end» := p3.position }, r3, p3)
        | _ =>
          ({ type := .NUMBER, value := v1, line := p.line, column := p.column,
             start := p.position, «end» := p1.position }, r1, p1)
    else if isIdentStart c then
      -- readIdentifier ('#' is consumed first when present)
      let (v0, r0, p0) :=
        if c = '#' then (("".push '#'), r, stepPos p c) else ("", c :: r, p)
      let (value, r1, p1) := readWhile isIdentCh r0 p0 v0
      ({ type := keywordLookup value, value := value, line := p.line,
         column := p.column, start := p.position, «end» := p1.position }, r1, p1)
    else if c = '/' ∧ r.head? = some '/' then
      let (value, r1, p1) := readLineLoop r.tail (stepPos (stepPos p c) '/') ""
      ({ type := .LINE_COMMENT, value := value, line := p.line,
         column := p.column, start := p.position, «end» := p1.position }, r1, p1)
    else if c = '/' ∧ r.head? = some '*' then
      let (value, r1, p1) := readBlockLoop r.tail (stepPos (stepPos p c) '*') ""
      ({ type := .BLOCK_COMMENT, value := value, line := p.line,
         column := p.column, start := p.position, «end» := p1.position }, r1, p1)
    else if c = '[' ∧ r.head? = some '[' then
      let (value, r1, p1) := readBuiltinLoop r.tail (stepPos (stepPos p c) '[') ""
      ({ type := .BUILTIN_COMMENT, value := value, line := p.line,
         column := p.column, start := p.position, «end» := p1.position }, r1, p1)
    else
      let p1 := stepPos p c
      ({ type := singleCharType c, value := String.singleton c, line := p.line,
         column := p.column, start := p.position, «end» := p1.position }, r, p1)

/-- `ApiLexer.tokenize`, fuel-indexed.  `nextToken` consumes at least one
character whenever it does not return `EOF` (see `nextToken_progress`), so
any fuel exceeding the input length reproduces the source's unbounded
`do … while` loop. -/
def tokenizeFuel : Nat → List Char → LexPos → List Token
  | 0, _, _ => []
  | fuel + 1, input, pos =>
    if (nextToken input pos).1.type = .EOF then [(nextToken input pos).1]
    else (nextToken input pos).1 ::
      tokenizeFuel fuel (nextToken input pos).2.1 (nextToken input pos).2.2

/-- `new ApiLexer(text).tokenize()`. -/
def tokenize (text : String) : List Token :=
  tokenizeFuel (text.data.length + 1) text.data
    { position := 0, line := 1, column := 1 }

/-! ## AST (`src/server/ast.ts`) -/

/-- The `start`/`end`/`line`/`column` fields every `ASTNode` carries. -/
structure Span where
  start : Nat
  «end» : Nat
  line : Nat
  column : Nat
  deriving DecidableEq, Repr

structure Identifier extends Span where
  name : String
  deriving DecidableEq, Repr

structure StringLiteral extends Span where
  value : String
  deriving DecidableEq, Repr

/-- `NumberLiteral`.  The source stores `parseFloat(token.value)`; the value
is only ever rendered back into display strings, so the embedding keeps the
raw lexeme. -/
structure NumberLiteral extends Span where
  raw : String
  deriving DecidableEq, Repr

structure TypeReference extends Span where
  name : String
  isBuiltin : Bool
  deriving DecidableEq, Repr

structure FieldDefinition extends Span where
  fieldType : TypeReference
  name : Identifier
  deriving DecidableEq, Repr

structure StructDefinition extends Span where
  fields : List FieldDefinition
  deriving DecidableEq, Repr

structure InlineStructDefinition extends Span where
  fields : List FieldDefinition
  deriving DecidableEq, Repr

structure EnumValue extends Span where
  name : Identifier
  value : Option NumberLiteral
  deriving DecidableEq, Repr

structure EnumDefinition extends Span where
  name : Identifier
  values : List EnumValue
  deriving DecidableEq, Repr

structure TypedefStatement extends Span where
  structDef : Option StructDefinition
  enumDef : Option EnumDefinition
  name : Identifier
  deriving DecidableEq, Repr

/-- `TypeReference | InlineStructDefinition`, the type of
`InputStatement.structRef` / `OutputStatement.structRef`. -/
inductive StructRef where
  | typeRef (t : TypeReference)
  | inline (s : InlineStructDefinition)
  deriving DecidableEq, Repr

def StructRef.spanEnd : StructRef → Nat
  | .typeRef t => t.«end»
  | .inline s => s.«end»

structure InputStatement extends Span where
  structRef : StructRef
  deriving DecidableEq, Repr

structure OutputStatement extends Span where
  structRef : StructRef
  deriving DecidableEq, Repr

structure ExtractStatement extends Span where
  fields : List Identifier
  deriving DecidableEq, Repr

inductive ApiBodyStatement where
  | input (s : InputStatement)
  | output (s : OutputStatement)
  | extract (s : ExtractStatement)
  deriving DecidableEq, Repr

structure ApiDefinition extends Span where
  uri : StringLiteral
  body : List ApiBodyStatement
  deriving DecidableEq, Repr

structure ApiListDefinition extends Span where
  name : StringLiteral
  apis : List ApiDefinition
  deriving DecidableEq, Repr

structure IncludeStatement extends Span where
  path : StringLiteral
  deriving DecidableEq, Repr

structure SetStatement extends Span where
  name : Identifier
  value : StringLiteral
  deriving DecidableEq, Repr

inductive Statement where
  | typedefStmt (t : TypedefStatement)
  | apiDef (a : ApiDefinition)
  | apiListDef (a : ApiListDefinition)
  | enumDef (e : EnumDefinition)
  | includeStmt (i : IncludeStatement)
  | setStmt (s : SetStatement)
  deriving DecidableEq, Repr

structure Program extends Span where
  body : List Statement
  deriving DecidableEq, Repr

/-! ## Parser (`src/server/parser.ts`)

The parser state is the token array plus the `current` cursor.  Throwing
`ParseError` is modelled with `Except`.  Loops are fuel-indexed; every loop
of the source advances the cursor on each iteration — except the enum-value
loop, which spins forever on a token that is neither an identifier, a
comma, a comment nor a closing brace; exhausted fuel (reachable only there)
is modelled by the sentinel `fuelError`. -/

structure PError where
  message : String
  token : Option Token
  deriving DecidableEq, Repr

/-- A single-quote character, for building the source's message strings. -/
def sq : String := String.singleton (Char.ofNat 39)

/-- Sentinel for the one loop of the source that can fail to progress and
hence never terminates (see the section comment). -/
def fuelError : PError := { message := "loop made no progress", token := none }

def eofFallbackToken : Token :=
  { type := .EOF, value := "", line := 0, column := 0, start := 0, «end» := 0 }

/-- `this.tokens[this.current]`.  The parser only reads past the final EOF
token on states the source never reaches; the fallback keeps the embedding
total and agrees with the source on all reachable states. -/
def peekTok (ts : List Token) (c : Nat) : Token := ts.getD c eofFallbackToken

/-- `ApiParser.isAtEnd`. -/
def isAtEndTok (ts : List Token) (c : Nat) : Bool := (peekTok ts c).type = .EOF

/-- `ApiParser.check`. -/
def checkTok (ts : List Token) (c : Nat) (tt : TokenType) : Bool :=
  if isAtEndTok ts c then false else (peekTok ts c).type = tt

/-- `ApiParser.advance` (cursor part; it never moves past EOF). -/
def advanceTok (ts : List Token) (c : Nat) : Nat :=
  if isAtEndTok ts c then c else c + 1

/-- `ApiParser.isBuiltinType`.  The source's list also names
`TokenType.NUMBER_TYPE` and `TokenType.BOOLEAN_TYPE`, which are not members
of the lexer's enum (they are `undefined` at runtime) and therefore never
match any token's type. -/
def isBuiltinTypeTT (tt : TokenType) : Bool :=
  tt = .INT ∨ tt = .LONG ∨ tt = .UINT ∨ tt = .ULONG ∨ tt = .BOOL ∨
  tt = .FLOAT ∨ tt = .DOUBLE ∨ tt = .STRING

/-- `ApiParser.checkType`: a builtin type or an identifier. -/
def checkTypeTok (ts : List Token) (c : Nat) : Bool :=
  isBuiltinTypeTT (peekTok ts c).type ∨ (peekTok ts c).type = .IDENTIFIER

/-- `ApiParser.isComment`. -/
def isCommentTok (t : Token) : Bool :=
  t.type = .LINE_COMMENT ∨ t.type = .BLOCK_COMMENT ∨ t.type = .BUILTIN_COMMENT

/-- `ApiParser.consume`: return the current token and advance, or throw. -/
def consumeTok (ts : List Token) (c : Nat) (tt : TokenType) (msg : String) :
    Except PError (Token × Nat) :=
  if checkTok ts c tt then .ok (peekTok ts c, c + 1)
  else
    .error { message := msg ++ ". Got " ++ (peekTok ts c).type.valueString ++
               " at line " ++ toString (peekTok ts c).line ++ ":" ++
               toString (peekTok ts c).column,
             token := some (peekTok ts c) }

/-- `ApiParser.parseTypeReference`. -/
def parseTypeReference (ts : List Token) (c : Nat) :
    Except PError (TypeReference × Nat) :=
  let token := peekTok ts c
  if checkTypeTok ts c then
    .ok ({ name := token.value, isBuiltin := isBuiltinTypeTT token.type,
           start := token.start, «end» := token.«end», line := token.line,
           column := token.column }, advanceTok ts c)
  else
    .error { message := "Expected type, got " ++ token.type.valueString,
             token := some token }

/-- `ApiParser.parseIdentifier`. -/
def parseIdentifier (ts : List Token) (c : Nat) :
    Except PError (Identifier × Nat) :=
  match consumeTok ts c .IDENTIFIER "Expected identifier" with
  | .error e => .error e
  | .ok (tok, c1) =>
    .ok ({ name := tok.value, start := tok.start, «end» := tok.«end»,
           line := tok.line, column := tok.column }, c1)

/-- `ApiParser.parseStringLiteral`. -/
def parseStringLiteral (ts : List Token) (c : Nat) :
    Except PError (StringLiteral × Nat) :=
  match consumeTok ts c .STRING_LITERAL "Expected string literal" with
  | .error e => .error e
  | .ok (tok, c1) =>
    .ok ({ value := tok.value, start := tok.start, «end» := tok.«end»,
           line := tok.line, column := tok.column }, c1)

/-- `ApiParser.parseNumberLiteral`. -/
def parseNumberLiteral (ts : List Token) (c : Nat) :
    Except PError (NumberLiteral × Nat) :=
  match consumeTok ts c .NUMBER "Expected number literal" with
  | .error e => .error e
  | .ok (tok, c1) =>
    .ok ({ raw := tok.value, start := tok.start, «end» := tok.«end»,
           line := tok.line, column := tok.column }, c1)

/-- The body of `parseFieldDefinition`'s first `try` block (the `type name`
order), entered when `checkType()` holds; any `.error` is caught by the
caller, which restores the cursor. -/
def parseFieldTypeName (ts : List Token) (c : Nat) :
    Except PError (FieldDefinition × Nat) :=
  let start := peekTok ts c
  match parseTypeReference ts c with
  | .error e => .error e
  | .ok (ft, c1) =>
    match parseIdentifier ts c1 with
    | .error e => .error e
    | .ok (nm, c2) =>
      let c3 := if checkTok ts c2 .SEMICOLON then advanceTok ts c2 else c2
      .ok ({ fieldType := ft, name := nm, start := start.start,
             «end» := nm.«end», line := start.line, column := start.column },
           c3)

/-- `ApiParser.parseFieldDefinition`: try `type name`; on failure restore
the cursor and try `name type`; if the cursor would be left unmoved,
advance it by one token. -/
def parseFieldDefinition (ts : List Token) (c : Nat) :
    Option FieldDefinition × Nat :=
  let start := peekTok ts c
  if start.type = .WHITESPACE ∨ start.type = .NEWLINE then (none, advanceTok ts c)
  else
    match (if checkTypeTok ts c then parseFieldTypeName ts c
           else .error fuelError) with
    | .ok (fd, c1) => (some fd, c1)
    | .error _ =>
      -- cursor restored to the saved position; second format: name type
      if checkTok ts c .IDENTIFIER then
        match parseIdentifier ts c with
        | .error _ => (none, advanceTok ts c)
        | .ok (nm, c1) =>
          if checkTypeTok ts c1 then
            match parseTypeReference ts c1 with
            | .error _ => (none, advanceTok ts c)
            | .ok (ft, c2) =>
              let c3 := if checkTok ts c2 .SEMICOLON then advanceTok ts c2 else c2
              (some { fieldType := ft, name := nm, start := start.start,
                      «end» := ft.«end», line := start.line,
                      column := start.column }, c3)
          else (none, c1)
      else (none, advanceTok ts c)

/-- The field loop shared verbatim by `parseStructDefinition` and
`parseInlineStructDefinition`: until `}` or EOF, skip comments and collect
parsed fields. -/
def parseStructFields : Nat → List Token → Nat → List FieldDefinition × Nat
  | 0, _, c => ([], c)
  | fuel + 1, ts, c =>
    if checkTok ts c .RIGHT_BRACE ∨ isAtEndTok ts c then ([], c)
    else if isCommentTok (peekTok ts c) then
      parseStructFields fuel ts (advanceTok ts c)
    else
      let (fd?, c1) := parseFieldDefinition ts c
      let (rest, c2) := parseStructFields fuel ts c1
      ((match fd? with | some fd => fd :: rest | none => rest), c2)

/-- `ApiParser.parseStructDefinition`. -/
def parseStructDefinition (fuel : Nat) (ts : List Token) (c : Nat) :
    Except PError (StructDefinition × Nat) :=
  let start := peekTok ts c
  match consumeTok ts c .STRUCT ("Expected " ++ sq ++ "struct" ++ sq) with
  | .error e => .error e
  | .ok (_, c1) =>
    match consumeTok ts c1 .LEFT_BRACE ("Expected " ++ sq ++ "\x7b" ++ sq) with
    | .error e => .error e
    | .ok (_, c2) =>
      let (fields, c3) := parseStructFields fuel ts c2
      match consumeTok ts c3 .RIGHT_BRACE ("Expected " ++ sq ++ "\x7d" ++ sq) with
      | .error e => .error e
      | .ok (endTok, c4) =>
        .ok ({ fields := fields, start := start.start, «end» := endTok.«end»,
               line := start.line, column := start.column }, c4)

/-- `ApiParser.parseInlineStructDefinition` (same loop, distinct node). -/
def parseInlineStructDefinition (fuel : Nat) (ts : List Token) (c : Nat) :
    Except PError (InlineStructDefinition × Nat) :=
  let start := peekTok ts c
  match consumeTok ts c .STRUCT ("Expected " ++ sq ++ "struct" ++ sq) with
  | .error e => .error e
  | .ok (_, c1) =>
    match consumeTok ts c1 .LEFT_BRACE ("Expected " ++ sq ++ "\x7b" ++ sq) with
    | .error e => .error e
    | .ok (_, c2) =>
      let (fields, c3) := parseStructFields fuel ts c2
      match consumeTok ts c3 .RIGHT_BRACE ("Expected " ++ sq ++ "\x7d" ++ sq) with
      | .error e => .error e
      | .ok (endTok, c4) =>
        .ok ({ fields := fields, start := start.start, «end» := endTok.«end»,
               line := start.line, column := start.column }, c4)

/-- `ApiParser.parseEnumValue`. -/
def parseEnumValue (ts : List Token) (c : Nat) :
    Except PError (Option EnumValue × Nat) :=
  let start := peekTok ts c
  if ¬ checkTok ts c .IDENTIFIER then .ok (none, c)
  else
    match parseIdentifier ts c with
    | .error e => .error e
    | .ok (nm, c1) =>
      if checkTok ts c1 .EQUALS then
        let c2 := advanceTok ts c1
        match parseNumberLiteral ts c2 with
        | .error e => .error e
        | .ok (v, c3) =>
          .ok (some { name := nm, value := some v, start := start.start,
                      «end» := v.«end», line := start.line,
                      column := start.column }, c3)
      else
        .ok (some { name := nm, value := none, start := start.start,
                    «end» := nm.«end», line := start.line,
                    column := start.column }, c1)

/-- The enum-body loop shared by `parseEnumDefinition` and
`parseInlineEnumDefinition`.  On a token that is none of `}`, EOF, comment,
identifier or comma the source makes no progress and loops forever; the
fuel sentinel models that divergence. -/
def parseEnumValues : Nat → List Token → Nat → Except PError (List EnumValue × Nat)
  | 0, _, _ => .error fuelError
  | fuel + 1, ts, c =>
    if checkTok ts c .RIGHT_BRACE ∨ isAtEndTok ts c then .ok ([], c)
    else if isCommentTok (peekTok ts c) then
      parseEnumValues fuel ts (advanceTok ts c)
    else
      match parseEnumValue ts c with
      | .error e => .error e
      | .ok (v?, c1) =>
        let c2 := if checkTok ts c1 .COMMA then advanceTok ts c1 else c1
        match parseEnumValues fuel ts c2 with
        | .error e => .error e
        | .ok (vs, c3) =>
          .ok ((match v? with | some v => v :: vs | none => vs), c3)

/-- `ApiParser.parseEnumDefinition` (named, top-level `enum`). -/
def parseEnumDefinition (fuel : Nat) (ts : List Token) (c : Nat) :
    Except PError (EnumDefinition × Nat) :=
  let start := peekTok ts c
  match consumeTok ts c .ENUM ("Expected " ++ sq ++ "enum" ++ sq) with
  | .error e => .error e
  | .ok (_, c1) =>
    match parseIdentifier ts c1 with
    | .error e => .error e
    | .ok (nm, c2) =>
      match consumeTok ts c2 .LEFT_BRACE ("Expected " ++ sq ++ "\x7b" ++ sq) with
      | .error e => .error e
      | .ok (_, c3) =>
        match parseEnumValues fuel ts c3 with
        | .error e => .error e
        | .ok (values, c4) =>
          match consumeTok ts c4 .RIGHT_BRACE ("Expected " ++ sq ++ "\x7d" ++ sq) with
          | .error e => .error e
          | .ok (endTok, c5) =>
            .ok ({ name := nm, values := values, start := start.start,
                   «end» := endTok.«end», line := start.line,
                   column := start.column }, c5)

/-- `ApiParser.parseInlineEnumDefinition` (under `typedef`; the name is the
empty temporary identifier). -/
def parseInlineEnumDefinition (fuel : Nat) (ts : List Token) (c : Nat) :
    Except PError (EnumDefinition × Nat) :=
  let start := peekTok ts c
  match consumeTok ts c .ENUM ("Expected " ++ sq ++ "enum" ++ sq) with
  | .error e => .error e
  | .ok (_, c1) =>
    match consumeTok ts c1 .LEFT_BRACE ("Expected " ++ sq ++ "\x7b" ++ sq) with
    | .error e => .error e
    | .ok (_, c2) =>
      match parseEnumValues fuel ts c2 with
      | .error e => .error e
      | .ok (values, c3) =>
        match consumeTok ts c3 .RIGHT_BRACE ("Expected " ++ sq ++ "\x7d" ++ sq) with
        | .error e => .error e
        | .ok (endTok, c4) =>
          .ok ({ name := { name := "", start := start.start,
                           «end» := start.«end», line := start.line,
                           column := start.column },
                 values := values, start := start.start,
                 «end» := endTok.«end», line := start.line,
                 column := start.column }, c4)

/-- `ApiParser.parseTypedefStatement`. -/
def parseTypedefStatement (fuel : Nat) (ts : List Token) (c : Nat) :
    Except PError (TypedefStatement × Nat) :=
  let start := peekTok ts c
  match consumeTok ts c .TYPEDEF ("Expected " ++ sq ++ "typedef" ++ sq) with
  | .error e => .error e
  | .ok (_, c1) =>
    match (if checkTok ts c1 .STRUCT then
             (parseStructDefinition fuel ts c1).map (fun r => (some r.1, none, r.2))
           else if checkTok ts c1 .ENUM then
             (parseInlineEnumDefinition fuel ts c1).map
               (fun r => ((none : Option StructDefinition), some r.1, r.2))
           else
             .error { message := "Expected " ++ sq ++ "struct" ++ sq ++ " or " ++
                        sq ++ "enum" ++ sq ++ " after " ++ sq ++ "typedef" ++ sq,
                      token := some (peekTok ts c1) }) with
    | .error e => .error e
    | .ok (sd, ed, c2) =>
      match parseIdentifier ts c2 with
      | .error e => .error e
      | .ok (nm, c3) =>
        .ok ({ structDef := sd, enumDef := ed, name := nm,
               start := start.start, «end» := nm.«end», line := start.line,
               column := start.column }, c3)

/-- The do-while loop of `parseExtractStatement`. -/
def parseExtractFields : Nat → List Token → Nat → Except PError (List Identifier × Nat)
  | 0, _, _ => .error fuelError
  | fuel + 1, ts, c =>
    match parseIdentifier ts c with
    | .error e => .error e
    | .ok (f, c1) =>
      if checkTok ts c1 .COMMA then
        let c2 := advanceTok ts c1
        if isAtEndTok ts c2 then .ok ([f], c2)
        else
          match parseExtractFields fuel ts c2 with
          | .error e => .error e
          | .ok (fs, c3) => .ok (f :: fs, c3)
      else .ok ([f], c1)

/-- `ApiParser.parseExtractStatement`. -/
def parseExtractStatement (fuel : Nat) (ts : List Token) (c : Nat) :
    Except PError (ExtractStatement × Nat) :=
  let start := peekTok ts c
  match consumeTok ts c .EXTRACT ("Expected " ++ sq ++ "extract" ++ sq) with
  | .error e => .error e
  | .ok (_, c1) =>
    match parseExtractFields fuel ts c1 with
    | .error e => .error e
    | .ok (fields, c2) =>
      .ok ({ fields := fields, start := start.start,
             «end» := (match fields.getLast? with
                       | some f => f.«end»
                       | none => start.«end»),
             line := start.line, column := start.column }, c2)

/-- `ApiParser.parseInputStatement`. -/
def parseInputStatement (fuel : Nat) (ts : List Token) (c : Nat) :
    Except PError (InputStatement × Nat) :=
  let start := peekTok ts c
  match consumeTok ts c .INPUT ("Expected " ++ sq ++ "input" ++ sq) with
  | .error e => .error e
  | .ok (_, c1) =>
    match (if checkTok ts c1 .STRUCT then
             (parseInlineStructDefinition fuel ts c1).map
               (fun r => (StructRef.inline r.1, r.2))
           else
             (parseTypeReference ts c1).map
               (fun r => (StructRef.typeRef r.1, r.2))) with
    | .error e => .error e
    | .ok (sr, c2) =>
      .ok ({ structRef := sr, start := start.start, «end» := sr.spanEnd,
             line := start.line, column := start.column }, c2)

/-- `ApiParser.parseOutputStatement`. -/
def parseOutputStatement (fuel : Nat) (ts : List Token) (c : Nat) :
    Except PError (OutputStatement × Nat) :=
  let start := peekTok ts c
  match consumeTok ts c .OUTPUT ("Expected " ++ sq ++ "output" ++ sq) with
  | .error e => .error e
  | .ok (_, c1) =>
    match (if checkTok ts c1 .STRUCT then
             (parseInlineStructDefinition fuel ts c1).map
               (fun r => (StructRef.inline r.1, r.2))
           else
             (parseTypeReference ts c1).map
               (fun r => (StructRef.typeRef r.1, r.2))) with
    | .error e => .error e
    | .ok (sr, c2) =>
      .ok ({ structRef := sr, start := start.start, «end» := sr.spanEnd,
             line := start.line, column := start.column }, c2)

/-- `ApiParser.parseApiBodyStatement`: input/output/extract, anything else
is skipped. -/
def parseApiBodyStatement (fuel : Nat) (ts : List Token) (c : Nat) :
    Except PError (Option ApiBodyStatement × Nat) :=
  match (peekTok ts c).type with
  | .INPUT => (parseInputStatement fuel ts c).map (fun r => (some (.input r.1), r.2))
  | .OUTPUT => (parseOutputStatement fuel ts c).map (fun r => (some (.output r.1), r.2))
  | .EXTRACT => (parseExtractStatement fuel ts c).map (fun r => (some (.extract r.1), r.2))
  | _ => .ok (none, advanceTok ts c)

/-- The body loop of `parseApiDefinition`. -/
def parseApiBody : Nat → List Token → Nat → Except PError (List ApiBodyStatement × Nat)
  | 0, _, _ => .error fuelError
  | fuel + 1, ts, c =>
    if checkTok ts c .RIGHT_BRACE ∨ isAtEndTok ts c then .ok ([], c)
    else if isCommentTok (peekTok ts c) then
      parseApiBody fuel ts (advanceTok ts c)
    else
      match parseApiBodyStatement fuel ts c with
      | .error e => .error e
      | .ok (st?, c1) =>
        match parseApiBody fuel ts c1 with
        | .error e => .error e
        | .ok (sts, c2) =>
          .ok ((match st? with | some st => st :: sts | none => sts), c2)

/-- `ApiParser.parseApiDefinition`. -/
def parseApiDefinition (fuel : Nat) (ts : List Token) (c : Nat) :
    Except PError (ApiDefinition × Nat) :=
  let start := peekTok ts c
  match consumeTok ts c .API ("Expected " ++ sq ++ "api" ++ sq) with
  | .error e => .error e
  | .ok (_, c1) =>
    match parseStringLiteral ts c1 with
    | .error e => .error e
    | .ok (uri, c2) =>
      match consumeTok ts c2 .LEFT_BRACE ("Expected " ++ sq ++ "\x7b" ++ sq) with
      | .error e => .error e
      | .ok (_, c3) =>
        match parseApiBody fuel ts c3 with
        | .error e => .error e
        | .ok (body, c4) =>
          match consumeTok ts c4 .RIGHT_BRACE ("Expected " ++ sq ++ "\x7d" ++ sq) with
          | .error e => .error e
          | .ok (endTok, c5) =>
            .ok ({ uri := uri, body := body, start := start.start,
                   «end» := endTok.«end», line := start.line,
                   column := start.column }, c5)

/-- The body loop of `parseApiListDefinition`: only `api` entries are
parsed, everything else is skipped. -/
def parseApiListBody : Nat → List Token → Nat → Except PError (List ApiDefinition × Nat)
  | 0, _, _ => .error fuelError
  | fuel + 1, ts, c =>
    if checkTok ts c .RIGHT_BRACE ∨ isAtEndTok ts c then .ok ([], c)
    else if isCommentTok (peekTok ts c) then
      parseApiListBody fuel ts (advanceTok ts c)
    else if checkTok ts c .API then
      match parseApiDefinition fuel ts c with
      | .error e => .error e
      | .ok (api, c1) =>
        match parseApiListBody fuel ts c1 with
        | .error e => .error e
        | .ok (apis, c2) => .ok (api :: apis, c2)
    else parseApiListBody fuel ts (advanceTok ts c)

/-- `ApiParser.parseApiListDefinition`. -/
def parseApiListDefinition (fuel : Nat) (ts : List Token) (c : Nat) :
    Except PError (ApiListDefinition × Nat) :=
  let start := peekTok ts c
  match consumeTok ts c .APILIST ("Expected " ++ sq ++ "apilist" ++ sq) with
  | .error e => .error e
  | .ok (_, c1) =>
    match parseStringLiteral ts c1 with
    | .error e => .error e
    | .ok (nm, c2) =>
      match consumeTok ts c2 .LEFT_BRACE ("Expected " ++ sq ++ "\x7b" ++ sq) with
      | .error e => .error e
      | .ok (_, c3) =>
        match parseApiListBody fuel ts c3 with
        | .error e => .error e
        | .ok (apis, c4) =>
          match consumeTok ts c4 .RIGHT_BRACE ("Expected " ++ sq ++ "\x7d" ++ sq) with
          | .error e => .error e
          | .ok (endTok, c5) =>
            .ok ({ name := nm, apis := apis, start := start.start,
                   «end» := endTok.«end», line := start.line,
                   column := start.column }, c5)

/-- `ApiParser.parseIncludeStatement`. -/
def parseIncludeStatement (ts : List Token) (c : Nat) :
    Except PError (IncludeStatement × Nat) :=
  let start := peekTok ts c
  match consumeTok ts c .INCLUDE ("Expected " ++ sq ++ "#include" ++ sq) with
  | .error e => .error e
  | .ok (_, c1) =>
    match parseStringLiteral ts c1 with
    | .error e => .error e
    | .ok (path, c2) =>
      .ok ({ path := path, start := start.start, «end» := path.«end»,
             line := start.line, column := start.column }, c2)

/-- `ApiParser.parseSetStatement`. -/
def parseSetStatement (ts : List Token) (c : Nat) :
    Except PError (SetStatement × Nat) :=
  let start := peekTok ts c
  match consumeTok ts c .SET ("Expected " ++ sq ++ "#set" ++ sq) with
  | .error e => .error e
  | .ok (_, c1) =>
    match parseIdentifier ts c1 with
    | .error e => .error e
    | .ok (nm, c2) =>
      match parseStringLiteral ts c2 with
      | .error e => .error e
      | .ok (v, c3) =>
        .ok ({ name := nm, value := v, start := start.start,
               «end» := v.«end», line := start.line,
               column := start.column }, c3)

/-- `ApiParser.parseStatement`: dispatch on the current token; unrecognized
tokens are skipped, EOF yields nothing. -/
def parseStatement (fuel : Nat) (ts : List Token) (c : Nat) :
    Except PError (Option Statement × Nat) :=
  match (peekTok ts c).type with
  | .TYPEDEF => (parseTypedefStatement fuel ts c).map (fun r => (some (.typedefStmt r.1), r.2))
  | .API => (parseApiDefinition fuel ts c).map (fun r => (some (.apiDef r.1), r.2))
  | .APILIST => (parseApiListDefinition fuel ts c).map (fun r => (some (.apiListDef r.1), r.2))
  | .ENUM => (parseEnumDefinition fuel ts c).map (fun r => (some (.enumDef r.1), r.2))
  | .INCLUDE => (parseIncludeStatement ts c).map (fun r => (some (.includeStmt r.1), r.2))
  | .SET => (parseSetStatement ts c).map (fun r => (some (.setStmt r.1), r.2))
  | .EOF => .ok (none, c)
  | _ => .ok (none, advanceTok ts c)

/-- The top-level loop of `ApiParser.parse`: skip comments and whitespace
tokens, collect parsed statements. -/
def parseStatements : Nat → List Token → Nat → Except PError (List Statement × Nat)
  | 0, _, _ => .error fuelError
  | fuel + 1, ts, c =>
    if isAtEndTok ts c then .ok ([], c)
    else if isCommentTok (peekTok ts c) ∨ (peekTok ts c).type = .WHITESPACE ∨
            (peekTok ts c).type = .NEWLINE then
      parseStatements fuel ts (advanceTok ts c)
    else
      match parseStatement fuel ts c with
      | .error e => .error e
      | .ok (st?, c1) =>
        match parseStatements fuel ts c1 with
        | .error e => .error e
        | .ok (sts, c2) =>
          .ok ((match st? with | some st => st :: sts | none => sts), c2)

/-- `ApiParser.parse` on an already-tokenized input. -/
def parseTokens (ts : List Token) : Except PError Program :=
  match parseStatements (ts.length + 1) ts 0 with
  | .error e => .error e
  | .ok (body, _) =>
    .ok { body := body, start := 0,
          «end» := (match ts.getLast? with | some t => t.«end» | none => 0),
          line := 1, column := 1 }

/-- `new ApiParser(lexer).parse(text)`. -/
def parse (text : String) : Except PError Program := parseTokens (tokenize text)

/-! ## Symbol table (`src/server/symbols.ts`)

JavaScript `Map`s are association lists with `Map.set` semantics: setting
an existing key replaces its value in place, setting a fresh key appends
it, so iteration order is first-insertion order. -/

/-- `Map.get`. -/
def mapGet {α : Type} : List (String × α) → String → Option α
  | [], _ => none
  | (k0, v) :: rest, k => if k0 = k then some v else mapGet rest k

/-- `Map.set`. -/
def mapSet {α : Type} : List (String × α) → String → α → List (String × α)
  | [], k, v => [(k, v)]
  | (k0, v0) :: rest, k, v =>
    if k0 = k then (k0, v) :: rest else (k0, v0) :: mapSet rest k v

/-- `enum SymbolKind` of `symbols.ts`. -/
inductive SymbolKind where
  | struct | field | api | apilist | enum | enumValue | type
  deriving DecidableEq, Repr

/-- An LSP position (0-based line/character), as stored in
`Symbol.location.range`. -/
structure Position0 where
  line : Nat
  character : Nat
  deriving DecidableEq, Repr

structure Range0 where
  start : Position0
  «end» : Position0
  deriving DecidableEq, Repr

structure Location where
  uri : String
  range : Range0
  deriving DecidableEq, Repr

/-- `interface Symbol` of `symbols.ts`. -/
structure Symbol where
  name : String
  kind : SymbolKind
  location : Location
  detail : Option String := none
  documentation : Option String := none
  parent : Option String := none
  type : Option String := none
  deriving DecidableEq, Repr

/-- JavaScript truthiness of an optional string (`undefined` and `""` are
falsy). -/
def optTruthy : Option String → Bool
  | none => false
  | some s => ¬ s.isEmpty

/-- The key used by `SymbolTable.addSymbol`:
`symbol.parent ? parent + "." + name : name`. -/
def symbolKey (s : Symbol) : String :=
  match s.parent with
  | some p => if p = "" then s.name else p ++ "." ++ s.name
  | none => s.name

/-- `class SymbolTable`: the key→symbol map, the struct-name→fields
secondary index, and the duplicate-report map. -/
structure SymbolTable where
  symbols : List (String × Symbol)
  structFields : List (String × List (String × Symbol))
  duplicates : List (String × List Symbol)
  deriving DecidableEq, Repr

def SymbolTable.empty : SymbolTable := ⟨[], [], []⟩

/-- `SymbolTable.addSymbol`: duplicate detection applies only to Field and
EnumValue symbols colliding on the same key with the same parent; the
symbol map is last-writer-wins; Field symbols with a (truthy) parent are
also added to the struct-field index. -/
def addSymbol (t : SymbolTable) (symbol : Symbol) : SymbolTable :=
  let key := symbolKey symbol
  let dups :=
    match mapGet t.symbols key with
    | none => t.duplicates
    | some existing =>
      if symbol.kind = .field ∧ existing.kind = .field then
        if existing.parent = symbol.parent then
          mapSet t.duplicates key (((mapGet t.duplicates key).getD [existing]) ++ [symbol])
        else t.duplicates
      else if symbol.kind = .enumValue ∧ existing.kind = .enumValue then
        if existing.parent = symbol.parent then
          mapSet t.duplicates key (((mapGet t.duplicates key).getD [existing]) ++ [symbol])
        else t.duplicates
      else t.duplicates
  let sf :=
    if symbol.kind = .field ∧ optTruthy symbol.parent then
      let parentName := symbol.parent.getD ""
      mapSet t.structFields parentName
        (mapSet ((mapGet t.structFields parentName).getD []) symbol.name symbol)
    else t.structFields
  { symbols := mapSet t.symbols key symbol, structFields := sf, duplicates := dups }

/-- `symbolTable.addSymbol` over a list, in order (the sequence of calls a
collector run performs). -/
def addAll (t : SymbolTable) (syms : List Symbol) : SymbolTable :=
  syms.foldl addSymbol t

/-- `SymbolTable.getSymbol`. -/
def SymbolTable.getSymbol (t : SymbolTable) (name : String)
    (parent : Option String := none) : Option Symbol :=
  let key := match parent with
    | some p => if p = "" then name else p ++ "." ++ name
    | none => name
  match mapGet t.symbols key with
  | some s => some s
  | none => mapGet t.symbols name

/-- `SymbolTable.getAllSymbols` (`Map.values` order). -/
def SymbolTable.getAllSymbols (t : SymbolTable) : List Symbol :=
  t.symbols.map (·.2)

/-- `SymbolTable.getSymbolsOfKind`. -/
def SymbolTable.getSymbolsOfKind (t : SymbolTable) (kind : SymbolKind) : List Symbol :=
  t.getAllSymbols.filter (fun s => s.kind = kind)

/-- `SymbolTable.getStructFields`. -/
def SymbolTable.getStructFields (t : SymbolTable) (structName : String) : List Symbol :=
  ((mapGet t.structFields structName).getD []).map (·.2)

/-- `SymbolTable.getDuplicates`. -/
def SymbolTable.getDuplicates (t : SymbolTable) : List (String × List Symbol) :=
  t.duplicates

/-! ## Symbol collector (`src/server/symbols.ts`, `class SymbolCollector`)

The collector never reads the table it writes to, so it is embedded as the
list of symbols it passes to `addSymbol`, in call order (`collectSymbols`),
folded into the table by `addAll`.  The `typedefContext` instance field is
threaded as the `ctx` argument; it is `none` outside
`visitTypedefStatement`, which sets it for the walk of its own struct or
enum body and clears it on exit. -/

/-- The symbol location `{ line: node.line - 1, character: node.column - 1 }`
… `{ character: node.column - 1 + len }`.  Lexer lines/columns are 1-based,
so the truncated `Nat` subtraction agrees with the source. -/
def nodeRange (line column len : Nat) : Range0 :=
  { start := { line := line - 1, character := column - 1 },
    «end» := { line := line - 1, character := column - 1 + len } }

/-- `SymbolCollector.visitFieldDefinition`: a Field symbol is created only
inside a (truthy) typedef context. -/
def symbolsOfField (uri : String) (ctx : Option String)
    (node : FieldDefinition) : List Symbol :=
  if optTruthy ctx then
    [{ name := node.name.name, kind := .field,
       location := { uri := uri,
                     range := nodeRange node.line node.column node.name.name.length },
       detail := some (node.fieldType.name ++ " " ++ node.name.name),
       documentation := some ("Field " ++ node.name.name ++ " of type " ++
         node.fieldType.name),
       parent := ctx, type := some node.fieldType.name }]
  else []

/-- `SymbolCollector.visitEnumValue`: an EnumValue symbol is created only
inside a (truthy) typedef context.  (`node.value.value.toString()` is kept
as the raw lexeme.) -/
def symbolsOfEnumValue (uri : String) (ctx : Option String)
    (node : EnumValue) : List Symbol :=
  if optTruthy ctx then
    [{ name := node.name.name, kind := .enumValue,
       location := { uri := uri,
                     range := nodeRange node.line node.column node.name.name.length },
       detail := some ("enum value " ++ node.name.name),
       documentation := some ("Enum value " ++ node.name.name),
       parent := ctx, type := node.value.map (fun v => v.raw) }]
  else []

/-- `SymbolCollector.visitEnumDefinition`: an Enum symbol unless the name
is empty or whitespace, then the values. -/
def symbolsOfEnumDefinition (uri : String) (ctx : Option String)
    (node : EnumDefinition) : List Symbol :=
  (if ¬ node.name.name.isEmpty ∧ node.name.name.trim ≠ "" then
     [{ name := node.name.name, kind := .enum,
        location := { uri := uri,
                      range := nodeRange node.line node.column node.name.name.length },
        detail := some ("enum " ++ node.name.name),
        documentation := some ("Enum definition for " ++ node.name.name) }]
   else []) ++
  node.values.flatMap (symbolsOfEnumValue uri ctx)

/-- `SymbolCollector.visitInlineStructDefinition`: no symbol for the inline
struct itself; its fields are walked (and contribute nothing unless a
typedef context is active, which is impossible on the paths that reach an
inline struct). -/
def symbolsOfInlineStruct (uri : String) (ctx : Option String)
    (node : InlineStructDefinition) : List Symbol :=
  node.fields.flatMap (symbolsOfField uri ctx)

/-- Modelled from the spec: the AST walk for an API-body statement.  The
snapshot's `ast.ts` is an earlier revision that predates the
`InlineStructDefinition`/`ApiListDefinition` node kinds imported by the
current `parser.ts`/`symbols.ts`; per §4.3 of the spec (and the
repository's fix notes) the walk descends through `input`/`output`
statements into an inline struct, dispatching it to
`visitInlineStructDefinition`, while named `TypeReference`s and `extract`
statements produce no symbols. -/
def symbolsOfApiBody (uri : String) (ctx : Option String) :
    ApiBodyStatement → List Symbol
  | .input s =>
    match s.structRef with
    | .typeRef _ => []
    | .inline isd => symbolsOfInlineStruct uri ctx isd
  | .output s =>
    match s.structRef with
    | .typeRef _ => []
    | .inline isd => symbolsOfInlineStruct uri ctx isd
  | .extract _ => []

/-- `SymbolCollector.visitApiDefinition`: an Api symbol without a parent,
then the walk of the body statements. -/
def symbolsOfApi (uri : String) (ctx : Option String)
    (node : ApiDefinition) : List Symbol :=
  { name := node.uri.value, kind := .api,
    location := { uri := uri,
                  range := nodeRange node.line node.column node.uri.value.length },
    detail := some ("api \"" ++ node.uri.value ++ "\""),
    documentation := some ("API definition for " ++ node.uri.value) } ::
  node.body.flatMap (symbolsOfApiBody uri ctx)

/-- `SymbolCollector.visitApiListDefinition`: an ApiList symbol, then for
each child `api` an Api symbol whose `parent` is the list's name, followed
by the walk of that api's body. -/
def symbolsOfApiList (uri : String) (ctx : Option String)
    (node : ApiListDefinition) : List Symbol :=
  { name := node.name.value, kind := .apilist,
    location := { uri := uri,
                  range := nodeRange node.line node.column node.name.value.length },
    detail := some ("apilist \"" ++ node.name.value ++ "\""),
    documentation := some ("API list definition for " ++ node.name.value) } ::
  node.apis.flatMap (fun api =>
    { name := api.uri.value, kind := .api,
      location := { uri := uri,
                    range := nodeRange api.line api.column api.uri.value.length },
      detail := some ("api \"" ++ api.uri.value ++ "\""),
      documentation := some ("API definition for " ++ api.uri.value ++ " in " ++
        node.name.value),
      parent := some node.name.value } ::
    api.body.flatMap (symbolsOfApiBody uri ctx))

/-- Modelled from the spec: `SymbolCollector.visitTypedefStatement`
combined with the walk of the owned struct body.  The snapshot's `ast.ts`
revision lacks the dispatch used here; per §4.3 of the spec and the
repository's duplicate-check fix notes, `walkAST(node.structDef, this)`
visits each struct field through `visitFieldDefinition` exactly once, with
the typedef context set to the typedef's name.  The enum branch dispatches
the owned `EnumDefinition` to `visitEnumDefinition`. -/
def symbolsOfTypedef (uri : String) (node : TypedefStatement) : List Symbol :=
  match node.structDef with
  | some sd =>
    { name := node.name.name, kind := .struct,
      location := { uri := uri,
                    range := nodeRange node.line node.column node.name.name.length },
      detail := some ("struct " ++ node.name.name),
      documentation := some ("Struct definition for " ++ node.name.name) } ::
    sd.fields.flatMap (symbolsOfField uri (some node.name.name))
  | none =>
    match node.enumDef with
    | some ed =>
      { name := node.name.name, kind := .enum,
        location := { uri := uri,
                      range := nodeRange node.line node.column node.name.name.length },
        detail := some ("enum " ++ node.name.name),
        documentation := some ("Enum definition for " ++ node.name.name) } ::
      symbolsOfEnumDefinition uri (some node.name.name) ed
    | none => []

/-- Modelled from the spec: `visitProgram`'s dispatch of each top-level
statement (the snapshot's `ast.ts` revision lacks the
`ApiListDefinition` case used by the current collector).  The typedef
context is `none` at the top level; `#include`/`#set` statements have no
visitor and produce nothing. -/
def symbolsOfStatement (uri : String) : Statement → List Symbol
  | .typedefStmt t => symbolsOfTypedef uri t
  | .apiDef a => symbolsOfApi uri none a
  | .apiListDef a => symbolsOfApiList uri none a
  | .enumDef e => symbolsOfEnumDefinition uri none e
  | .includeStmt _ => []
  | .setStmt _ => []

/-- The sequence of symbols a `SymbolCollector.collect(program)` run passes
to `addSymbol`, in call order. -/
def collectSymbols (p : Program) (uri : String) : List Symbol :=
  p.body.flatMap (symbolsOfStatement uri)

/-- `new SymbolCollector(table, uri).collect(program)`. -/
def collect (p : Program) (uri : String) (t : SymbolTable) : SymbolTable :=
  addAll t (collectSymbols p uri)

/-! ## Server pure cores (`src/server/server.ts`) -/

structure FormatSettings where
  enable : Bool
  indentSize : Nat
  alignFields : Bool
  deriving DecidableEq, Repr

/-- `interface ApiLanguageServerSettings`. -/
structure ApiLanguageServerSettings where
  maxNumberOfProblems : Nat
  format : FormatSettings
  deriving DecidableEq, Repr

/-- `defaultSettings` (`server.ts`). -/
def defaultSettings : ApiLanguageServerSettings :=
  { maxNumberOfProblems := 100,
    format := { enable := true, indentSize := 2, alignFields := true } }

/-- The parts of an LSP `Diagnostic` the server computes (severity and
source are constants). -/
structure Diagnostic where
  range : Range0
  message : String
  deriving DecidableEq, Repr

/-- The duplicate-diagnostics loop of `validateTextDocument`: for each
duplicate group entirely in the current document, one diagnostic per
symbol after the first, anchored textually to the first symbol's line. -/
def duplicateDiagnostics (uri : String)
    (dups : List (String × List Symbol)) : List Diagnostic :=
  dups.flatMap (fun e =>
    match e.2 with
    | s0 :: s1 :: srest =>
      if (s0 :: s1 :: srest).all (fun s => s.location.uri = uri) then
        (s1 :: srest).map (fun s =>
          { range := s.location.range,
            message := "Duplicate definition of " ++ sq ++ e.1 ++ sq ++
              ". First defined at line " ++
              toString (s0.location.range.start.line + 1) ++ "." })
      else []
    | _ => [])

/-- The `ParseError` diagnostic of `validateTextDocument`'s catch branch. -/
def parseErrorDiagnostic (e : PError) : Diagnostic :=
  { range := match e.token with
      | some tok =>
        { start := { line := tok.line - 1, character := tok.column - 1 },
          «end» := { line := tok.line - 1,
                     character := tok.column - 1 + tok.value.length } }
      | none =>
        { start := { line := 0, character := 0 },
          «end» := { line := 0, character := 0 } },
    message := e.message }

/-- The diagnostics `validateTextDocument` accumulates before the
`maxNumberOfProblems` truncation: duplicate diagnostics from a fresh
temporary symbol table on success, one `ParseError` diagnostic on
failure. -/
def rawDiagnostics (text uri : String) : List Diagnostic :=
  match parse text with
  | .ok ast =>
    duplicateDiagnostics uri (collect ast uri SymbolTable.empty).getDuplicates
  | .error e => [parseErrorDiagnostic e]

/-- `diagnostics.splice(settings.maxNumberOfProblems)`: keep the first
`maxNumberOfProblems` diagnostics. -/
def limitDiagnostics (diagnostics : List Diagnostic) (maxProblems : Nat) :
    List Diagnostic :=
  if diagnostics.length > maxProblems then diagnostics.take maxProblems
  else diagnostics

/-- The pure core of `validateTextDocument`: the diagnostics list the
server sends for a document. -/
def validateTextDocument (text uri : String)
    (settings : ApiLanguageServerSettings) : List Diagnostic :=
  limitDiagnostics (rawDiagnostics text uri) settings.maxNumberOfProblems

/-- The pure core of `indexDocument`: parse and collect into the global
table; a parse failure is caught and leaves the table untouched. -/
def indexDocument (text uri : String) (t : SymbolTable) : SymbolTable :=
  match parse text with
  | .ok ast => collect ast uri t
  | .error _ => t

/-! ### Symbol cache (`saveCacheToFile` / `loadCacheFromFile`) -/

def CACHE_VERSION : String := "1.0.0"

/-- 24 hours in milliseconds (`24 * 60 * 60 * 1000`). -/
def CACHE_TTL_MS : Nat := 24 * 60 * 60 * 1000

/-- A serialized symbol: `saveCacheToFile` writes only these five fields
(`parent` and `type` are dropped). -/
structure CacheSymbol where
  name : String
  kind : SymbolKind
  location : Location
  documentation : Option String
  detail : Option String
  deriving DecidableEq, Repr

/-- The persisted cache record. -/
structure CacheData where
  version : String
  timestamp : Nat
  symbols : List CacheSymbol
  deriving DecidableEq, Repr

/-- The pure core of `saveCacheToFile`: the record written to disk. -/
def saveCacheToFile (t : SymbolTable) (now : Nat) : CacheData :=
  { version := CACHE_VERSION, timestamp := now,
    symbols := t.getAllSymbols.map (fun s =>
      { name := s.name, kind := s.kind, location := s.location,
        documentation := s.documentation, detail := s.detail }) }

/-- A loaded cache entry re-enters `addSymbol` with only the five
serialized fields; `parent` and `type` are absent. -/
def cacheSymbolToSymbol (e : CacheSymbol) : Symbol :=
  { name := e.name, kind := e.kind, location := e.location,
    documentation := e.documentation, detail := e.detail,
    parent := none, type := none }

/-- The pure core of `loadCacheFromFile`: reject on version mismatch or an
age above the TTL (leaving the table untouched and returning `false`),
otherwise add every cached symbol to the table and return `true`. -/
def loadCacheFromFile (d : CacheData) (now : Nat) (t : SymbolTable) :
    Bool × SymbolTable :=
  if d.version ≠ CACHE_VERSION then (false, t)
  else if now - d.timestamp > CACHE_TTL_MS then (false, t)
  else (true, addAll t (d.symbols.map cacheSymbolToSymbol))

/-! ### The `typedef struct { f1 T1 … } Name` token family (for C1)

Token sequences of the shape the claim quantifies over: field names given
as identifier tokens, field types drawn from the eight builtin type
keywords.  Spans are fixed (the claim is about symbol names, kinds and
parents, not positions). -/

/-- The eight builtin type keywords of the DSL. -/
inductive BuiltinType where
  | int | long | uint | ulong | bool | float | double | string
  deriving DecidableEq, Repr

def BuiltinType.tokenType : BuiltinType → TokenType
  | .int => .INT | .long => .LONG | .uint => .UINT | .ulong => .ULONG
  | .bool => .BOOL | .float => .FLOAT | .double => .DOUBLE
  | .string => .STRING

def BuiltinType.str : BuiltinType → String
  | .int => "int" | .long => "long" | .uint => "uint" | .ulong => "ulong"
  | .bool => "bool" | .float => "float" | .double => "double"
  | .string => "string"

def identTokC1 (s : String) : Token :=
  { type := .IDENTIFIER, value := s, line := 1, column := 1, start := 0,
    «end» := 0 }

def builtinTokC1 (b : BuiltinType) : Token :=
  { type := b.tokenType, value := b.str, line := 1, column := 1, start := 0,
    «end» := 0 }

def kwTokC1 (tt : TokenType) (v : String) : Token :=
  { type := tt, value := v, line := 1, column := 1, start := 0, «end» := 0 }

/-- The token run of the field list: `f1 T1 f2 T2 …` (name-first, the
order the claim's input form uses). -/
def fieldToksC1 (fields : List (String × BuiltinType)) : List Token :=
  fields.flatMap (fun fb => [identTokC1 fb.1, builtinTokC1 fb.2])

/-- `typedef struct { f1 T1 f2 T2 … } Name` as a token sequence ending in
EOF. -/
def typedefStructTokens (fields : List (String × BuiltinType))
    (name : String) : List Token :=
  kwTokC1 .TYPEDEF "typedef" :: kwTokC1 .STRUCT "struct" ::
    kwTokC1 .LEFT_BRACE "\x7b" ::
    (fieldToksC1 fields ++
      [kwTokC1 .RIGHT_BRACE "\x7d", identTokC1 name, kwTokC1 .EOF ""])

/-- The `FieldDefinition` the parser produces for one `f T` pair of the
family (parsed name-first after the type-first attempt fails on the
builtin keyword). -/
def fdFam (f : String) (b : BuiltinType) : FieldDefinition :=
  { fieldType := { name := b.str, isBuiltin := true, start := 0,
                   «end» := 0, line := 1, column := 1 },
    name := { name := f, start := 0, «end» := 0, line := 1, column := 1 },
    start := 0, «end» := 0, line := 1, column := 1 }

/-- The `StructDefinition` the parser produces for the family. -/
def sdFam (fields : List (String × BuiltinType)) : StructDefinition :=
  { fields := fields.map (fun fb => fdFam fb.1 fb.2),
    start := 0, «end» := 0, line := 1, column := 1 }

/-- The `TypedefStatement` the parser produces for the family. -/
def tdFam (fields : List (String × BuiltinType)) (name : String) :
    TypedefStatement :=
  { structDef := some (sdFam fields),
    enumDef := none,
    name := { name := name, start := 0, «end» := 0, line := 1, column := 1 },
    start := 0, «end» := 0, line := 1, column := 1 }

/-- The `Program` the parser produces for the family. -/
def progFam (fields : List (String × BuiltinType)) (name : String) : Program :=
  { body := [.typedefStmt (tdFam fields name)], start := 0, «end» := 0,
    line := 1, column := 1 }

/-- The Struct symbol the collector emits for the family. -/
def structSymC1 (uri name : String) : Symbol :=
  { name := name, kind := .struct,
    location := { uri := uri, range := nodeRange 1 1 name.length },
    detail := some ("struct " ++ name),
    documentation := some ("Struct definition for " ++ name) }

/-- The Field symbol the collector emits for one field of the family. -/
def fieldSymC1 (uri name : String) (fb : String × BuiltinType) : Symbol :=
  { name := fb.1, kind := .field,
    location := { uri := uri, range := nodeRange 1 1 fb.1.length },
    detail := some (fb.2.str ++ " " ++ fb.1),
    documentation := some ("Field " ++ fb.1 ++ " of type " ++ fb.2.str),
    parent := some name, type := some fb.2.str }

/-! ## Association-map lemmas

Facts about the `Map.set`/`Map.get` embedding, used to reason about
re-running symbol collection over an already-populated table. -/

def mapKeys {α : Type} (m : List (String × α)) : List String := m.map Prod.fst

@[simp] theorem mapKeys_nil {α : Type} : mapKeys ([] : List (String × α)) = [] := rfl

@[simp] theorem mapKeys_cons {α : Type} (e : String × α) (m : List (String × α)) :
    mapKeys (e :: m) = e.1 :: mapKeys m := rfl

theorem mapGet_set_self {α : Type} (m : List (String × α)) (k : String) (v : α) :
    mapGet (mapSet m k v) k = some v := by
  induction m with
  | nil => simp [mapSet, mapGet]
  | cons e rest ih =>
    obtain ⟨k0, v0⟩ := e
    by_cases h : k0 = k
    · simp [mapSet, h, mapGet]
    · simp [mapSet, h, mapGet, ih]

theorem mapGet_set_ne {α : Type} (m : List (String × α)) (k k' : String) (v : α)
    (h : k' ≠ k) : mapGet (mapSet m k v) k' = mapGet m k' := by
  induction m with
  | nil => simp [mapSet, mapGet, Ne.symm h]
  | cons e rest ih =>
    obtain ⟨k0, v0⟩ := e
    by_cases h0 : k0 = k
    · subst h0
      simp [mapSet, mapGet, Ne.symm h]
    · by_cases h1 : k0 = k'
      · subst h1
        simp [mapSet, h0, mapGet]
      · simp [mapSet, h0, mapGet, h1, ih]

theorem mem_mapKeys_iff_isSome {α : Type} (m : List (String × α)) (k : String) :
    k ∈ mapKeys m ↔ (mapGet m k).isSome := by
  induction m with
  | nil => simp [mapGet]
  | cons e rest ih =>
    obtain ⟨k0, v0⟩ := e
    by_cases h : k0 = k
    · simp [mapGet, h]
    · simp [mapGet, h, ih, Ne.symm h]

theorem mapGet_eq_none_of_not_mem {α : Type} (m : List (String × α)) (k : String)
    (h : k ∉ mapKeys m) : mapGet m k = none := by
  rcases ho : mapGet m k with _ | v
  · rfl
  · exact absurd ((mem_mapKeys_iff_isSome m k).2 (by simp [ho])) h

theorem mapGet_mem {α : Type} (m : List (String × α)) (k : String) (v : α)
    (h : mapGet m k = some v) : (k, v) ∈ m := by
  induction m with
  | nil => simp [mapGet] at h
  | cons e rest ih =>
    obtain ⟨k0, v0⟩ := e
    by_cases h0 : k0 = k
    · subst h0
      simp [mapGet] at h
      simp [h]
    · simp [mapGet, h0] at h
      exact List.mem_cons_of_mem _ (ih h)

theorem mapSet_of_not_mem {α : Type} (m : List (String × α)) (k : String) (v : α)
    (h : k ∉ mapKeys m) : mapSet m k v = m ++ [(k, v)] := by
  induction m with
  | nil => simp [mapSet]
  | cons e rest ih =>
    obtain ⟨k0, v0⟩ := e
    simp only [mapKeys_cons, List.mem_cons] at h
    push_neg at h
    simp [mapSet, Ne.symm h.1, ih h.2]

theorem mapKeys_set {α : Type} (m : List (String × α)) (k : String) (v : α) :
    mapKeys (mapSet m k v) =
      if k ∈ mapKeys m then mapKeys m else mapKeys m ++ [k] := by
  induction m with
  | nil => simp [mapSet]
  | cons e rest ih =>
    obtain ⟨k0, v0⟩ := e
    by_cases h : k0 = k
    · simp [mapSet, h]
    · simp only [mapSet, if_neg h, mapKeys_cons, ih, List.mem_cons]
      by_cases hm : k ∈ mapKeys rest
      · simp [hm]
      · simp [hm, Ne.symm h]

theorem mem_keys_set_self {α : Type} (m : List (String × α)) (k : String) (v : α) :
    k ∈ mapKeys (mapSet m k v) :=
  (mem_mapKeys_iff_isSome _ _).2 (by simp [mapGet_set_self])

theorem mem_keys_set_of_mem {α : Type} (m : List (String × α)) (k k' : String)
    (v : α) (h : k' ∈ mapKeys m) : k' ∈ mapKeys (mapSet m k v) := by
  rw [mapKeys_set]
  split <;> simp [h]

theorem nodup_keys_set {α : Type} (m : List (String × α)) (k : String) (v : α)
    (h : (mapKeys m).Nodup) : (mapKeys (mapSet m k v)).Nodup := by
  by_cases hk : k ∈ mapKeys m
  · rw [mapKeys_set, if_pos hk]
    exact h
  · rw [mapKeys_set, if_neg hk, List.nodup_append]
    refine ⟨h, List.nodup_singleton _, ?_⟩
    intro a ha hb
    simp only [List.mem_singleton] at hb
    exact hk (hb ▸ ha)

theorem mapExt {α : Type} (m1 m2 : List (String × α))
    (hk : mapKeys m1 = mapKeys m2) (hnd : (mapKeys m1).Nodup)
    (hget : ∀ k, mapGet m1 k = mapGet m2 k) : m1 = m2 := by
  induction m1 generalizing m2 with
  | nil =>
    have : mapKeys m2 = [] := hk.symm
    simpa [mapKeys, List.map_eq_nil_iff] using this
  | cons e t1 ih =>
    obtain ⟨k, v⟩ := e
    cases m2 with
    | nil => simp [mapKeys] at hk
    | cons e2 t2 =>
      obtain ⟨k2, v2⟩ := e2
      simp only [mapKeys_cons] at hk
      have hkk : k = k2 := by simpa using congrArg List.head? hk
      have hkt : mapKeys t1 = mapKeys t2 := by simpa using congrArg List.tail hk
      subst hkk
      have hv : v = v2 := by
        have := hget k
        simpa [mapGet] using this
      subst hv
      have hnotmem : k ∉ mapKeys t1 := by
        simp only [mapKeys_cons, List.nodup_cons] at hnd
        exact hnd.1
      have hnotmem2 : k ∉ mapKeys t2 := hkt ▸ hnotmem
      have hnd' : (mapKeys t1).Nodup := by
        simp only [mapKeys_cons, List.nodup_cons] at hnd
        exact hnd.2
      have ht : t1 = t2 := by
        refine ih t2 hkt hnd' ?_
        intro k'
        by_cases hk' : k = k'
        · subst hk'
          rw [mapGet_eq_none_of_not_mem _ _ hnotmem,
            mapGet_eq_none_of_not_mem _ _ hnotmem2]
        · have := hget k'
          simpa [mapGet, hk'] using this
      rw [ht]

/-- Applying a list of writes with `Map.set`, in order. -/
def setMany {α : Type} (m ws : List (String × α)) : List (String × α) :=
  ws.foldl (fun acc kv => mapSet acc kv.1 kv.2) m

@[simp] theorem setMany_nil {α : Type} (m : List (String × α)) :
    setMany m [] = m := rfl

@[simp] theorem setMany_cons {α : Type} (m : List (String × α))
    (kv : String × α) (ws : List (String × α)) :
    setMany m (kv :: ws) = setMany (mapSet m kv.1 kv.2) ws := rfl

theorem mem_keys_setMany_of_mem {α : Type} (m ws : List (String × α))
    (k : String) (h : k ∈ mapKeys m) : k ∈ mapKeys (setMany m ws) := by
  induction ws generalizing m with
  | nil => simpa using h
  | cons kv ws ih => exact ih _ (mem_keys_set_of_mem _ _ _ _ h)

theorem mem_keys_setMany_of_mem_writes {α : Type} (m ws : List (String × α))
    (kv : String × α) (h : kv ∈ ws) : kv.1 ∈ mapKeys (setMany m ws) := by
  induction ws generalizing m with
  | nil => simp at h
  | cons kv0 ws ih =>
    rcases List.mem_cons.1 h with h | h
    · subst h
      rw [setMany_cons]
      exact mem_keys_setMany_of_mem _ _ _ (mem_keys_set_self _ _ _)
    · rw [setMany_cons]
      exact ih _ h

theorem mapKeys_setMany_of_subset {α : Type} (m ws : List (String × α)) :
    (∀ kv ∈ ws, kv.1 ∈ mapKeys m) → mapKeys (setMany m ws) = mapKeys m := by
  induction ws generalizing m with
  | nil => intro _; rfl
  | cons kv ws ih =>
    intro h
    have hmem : kv.1 ∈ mapKeys m := h kv (by simp)
    have hkeys : mapKeys (mapSet m kv.1 kv.2) = mapKeys m := by
      rw [mapKeys_set, if_pos hmem]
    rw [setMany_cons, ih (mapSet m kv.1 kv.2) (fun kv' h' => by
      rw [hkeys]; exact h kv' (List.mem_cons_of_mem _ h'))]
    exact hkeys

theorem nodup_keys_setMany {α : Type} (m ws : List (String × α))
    (h : (mapKeys m).Nodup) : (mapKeys (setMany m ws)).Nodup := by
  induction ws generalizing m with
  | nil => simpa using h
  | cons kv ws ih => exact ih _ (nodup_keys_set _ _ _ h)

/-- First-some choice, used to state `mapGet` over accumulated writes. -/
def orElseO {α : Type} (a b : Option α) : Option α :=
  match a with
  | some v => some v
  | none => b

@[simp] theorem orElseO_some {α : Type} (v : α) (b : Option α) :
    orElseO (some v) b = some v := rfl

@[simp] theorem orElseO_none {α : Type} (b : Option α) :
    orElseO none b = b := rfl

/-- The last write for a key in a write list. -/
def lastWrite {α : Type} (ws : List (String × α)) (k : String) : Option α :=
  mapGet ws.reverse k

theorem mapGet_append {α : Type} (m1 m2 : List (String × α)) (k : String) :
    mapGet (m1 ++ m2) k = orElseO (mapGet m1 k) (mapGet m2 k) := by
  induction m1 with
  | nil => simp [mapGet]
  | cons e rest ih =>
    obtain ⟨k0, v0⟩ := e
    by_cases h : k0 = k <;> simp [mapGet, h, ih]

theorem mapGet_setMany {α : Type} (m ws : List (String × α)) (k : String) :
    mapGet (setMany m ws) k = orElseO (lastWrite ws k) (mapGet m k) := by
  induction ws generalizing m with
  | nil => simp [lastWrite, mapGet]
  | cons kv ws ih =>
    obtain ⟨k0, v0⟩ := kv
    rw [setMany_cons, ih]
    have hlw : lastWrite ((k0, v0) :: ws) k =
        orElseO (lastWrite ws k) (if k0 = k then some v0 else none) := by
      simp [lastWrite, List.reverse_cons, mapGet_append, mapGet]
    rw [hlw]
    rcases lastWrite ws k with _ | v
    · simp only [orElseO_none]
      by_cases h : k0 = k
      · subst h
        simp [mapGet_set_self]
      · simp [h, mapGet_set_ne _ _ _ _ (fun hh => h hh.symm)]
    · simp

theorem setMany_idem {α : Type} (m ws : List (String × α))
    (hnd : (mapKeys m).Nodup) : setMany (setMany m ws) ws = setMany m ws := by
  refine mapExt _ _ ?_ ?_ ?_
  · exact mapKeys_setMany_of_subset _ _
      (fun kv h => mem_keys_setMany_of_mem_writes _ _ _ h)
  · exact nodup_keys_setMany _ _ (nodup_keys_setMany _ _ hnd)
  · intro k
    simp only [mapGet_setMany]
    rcases lastWrite ws k with _ | v <;> simp

/-! ### Nested writes (the struct-field index) -/

/-- The nested update `addSymbol` performs on `structFields`: ensure the
parent's inner map exists, then set the field name in it. -/
def nestedSet (sf : List (String × List (String × Symbol))) (p n : String)
    (v : Symbol) : List (String × List (String × Symbol)) :=
  mapSet sf p (mapSet ((mapGet sf p).getD []) n v)

def nestedSetMany (sf : List (String × List (String × Symbol)))
    (ws : List (String × String × Symbol)) :
    List (String × List (String × Symbol)) :=
  ws.foldl (fun acc w => nestedSet acc w.1 w.2.1 w.2.2) sf

@[simp] theorem nestedSetMany_nil (sf : List (String × List (String × Symbol))) :
    nestedSetMany sf [] = sf := rfl

@[simp] theorem nestedSetMany_cons (sf : List (String × List (String × Symbol)))
    (w : String × String × Symbol) (ws : List (String × String × Symbol)) :
    nestedSetMany sf (w :: ws) = nestedSetMany (nestedSet sf w.1 w.2.1 w.2.2) ws := rfl

/-- The inner writes a nested-write list performs for one parent key. -/
def innerWrites (p : String) (ws : List (String × String × Symbol)) :
    List (String × Symbol) :=
  (ws.filter (fun w => w.1 = p)).map (fun w => w.2)

theorem mapGet_nestedSetMany (sf : List (String × List (String × Symbol)))
    (ws : List (String × String × Symbol)) (p : String) :
    mapGet (nestedSetMany sf ws) p =
      if innerWrites p ws = [] then mapGet sf p
      else some (setMany ((mapGet sf p).getD []) (innerWrites p ws)) := by
  induction ws generalizing sf with
  | nil => simp [innerWrites]
  | cons w ws ih =>
    obtain ⟨wp, wn, wv⟩ := w
    by_cases hp : wp = p
    · subst hp
      have hiw : innerWrites wp ((wp, wn, wv) :: ws) =
          (wn, wv) :: innerWrites wp ws := by
        simp [innerWrites]
      rw [nestedSetMany_cons, ih, hiw]
      have hget : mapGet (nestedSet sf wp wn wv) wp =
          some (mapSet ((mapGet sf wp).getD []) wn wv) :=
        mapGet_set_self _ _ _
      by_cases hnil : innerWrites wp ws = []
      · simp [hnil, hget]
      · simp [hnil, hget]
    · have hiw : innerWrites p ((wp, wn, wv) :: ws) = innerWrites p ws := by
        simp [innerWrites, hp]
      have hget : mapGet (nestedSet sf wp wn wv) p = mapGet sf p :=
        mapGet_set_ne _ _ _ _ (Ne.symm hp)
      rw [nestedSetMany_cons, ih, hiw, hget]

theorem mem_keys_nestedSetMany_of_mem (sf : List (String × List (String × Symbol)))
    (ws : List (String × String × Symbol)) (p : String)
    (h : p ∈ mapKeys sf) : p ∈ mapKeys (nestedSetMany sf ws) := by
  induction ws generalizing sf with
  | nil => simpa using h
  | cons w ws ih => exact ih _ (mem_keys_set_of_mem _ _ _ _ h)

theorem mem_keys_nestedSetMany_of_mem_writes
    (sf : List (String × List (String × Symbol)))
    (ws : List (String × String × Symbol)) (w : String × String × Symbol)
    (h : w ∈ ws) : w.1 ∈ mapKeys (nestedSetMany sf ws) := by
  induction ws generalizing sf with
  | nil => simp at h
  | cons w0 ws ih =>
    rcases List.mem_cons.1 h with h | h
    · subst h
      rw [nestedSetMany_cons]
      exact mem_keys_nestedSetMany_of_mem _ _ _ (mem_keys_set_self _ _ _)
    · rw [nestedSetMany_cons]
      exact ih _ h

theorem mapKeys_nestedSetMany_of_subset
    (sf : List (String × List (String × Symbol)))
    (ws : List (String × String × Symbol)) :
    (∀ w ∈ ws, w.1 ∈ mapKeys sf) →
      mapKeys (nestedSetMany sf ws) = mapKeys sf := by
  induction ws generalizing sf with
  | nil => intro _; rfl
  | cons w ws ih =>
    intro h
    have hmem : w.1 ∈ mapKeys sf := h w (by simp)
    have hkeys : mapKeys (nestedSet sf w.1 w.2.1 w.2.2) = mapKeys sf := by
      rw [nestedSet, mapKeys_set, if_pos hmem]
    rw [nestedSetMany_cons, ih (nestedSet sf w.1 w.2.1 w.2.2) (fun w' h' => by
      rw [hkeys]; exact h w' (List.mem_cons_of_mem _ h'))]
    exact hkeys

theorem nodup_keys_nestedSetMany (sf : List (String × List (String × Symbol)))
    (ws : List (String × String × Symbol))
    (h : (mapKeys sf).Nodup) : (mapKeys (nestedSetMany sf ws)).Nodup := by
  induction ws generalizing sf with
  | nil => simpa using h
  | cons w ws ih => exact ih _ (nodup_keys_set _ _ _ h)

theorem nestedSetMany_idem (sf : List (String × List (String × Symbol)))
    (ws : List (String × String × Symbol))
    (hout : (mapKeys sf).Nodup)
    (hin : ∀ e ∈ sf, (mapKeys e.2).Nodup) :
    nestedSetMany (nestedSetMany sf ws) ws = nestedSetMany sf ws := by
  refine mapExt _ _ ?_ ?_ ?_
  · exact mapKeys_nestedSetMany_of_subset _ _
      (fun w h => mem_keys_nestedSetMany_of_mem_writes _ _ _ h)
  · exact nodup_keys_nestedSetMany _ _ (nodup_keys_nestedSetMany _ _ hout)
  · intro p
    by_cases hnil : innerWrites p ws = []
    · simp [mapGet_nestedSetMany, hnil]
    · have hbase : (mapKeys ((mapGet sf p).getD [])).Nodup := by
        rcases hsf : mapGet sf p with _ | inner
        · simp
        · simpa using hin (p, inner) (mapGet_mem _ _ _ hsf)
      simp [mapGet_nestedSetMany, hnil, setMany_idem _ _ hbase]

/-! ### Projections of `addSymbol` runs -/

/-- The symbol-map writes of a sequence of `addSymbol` calls. -/
def symWrites (syms : List Symbol) : List (String × Symbol) :=
  syms.map (fun s => (symbolKey s, s))

/-- The struct-field-index writes of a sequence of `addSymbol` calls (only
Field symbols with a truthy parent touch the index). -/
def sfWrites (syms : List Symbol) : List (String × String × Symbol) :=
  syms.filterMap (fun s =>
    if s.kind = .field ∧ optTruthy s.parent then
      some (s.parent.getD "", (s.name, s))
    else none)

theorem addSymbol_symbols (t : SymbolTable) (s : Symbol) :
    (addSymbol t s).symbols = mapSet t.symbols (symbolKey s) s := rfl

theorem addSymbol_structFields (t : SymbolTable) (s : Symbol) :
    (addSymbol t s).structFields =
      if s.kind = .field ∧ optTruthy s.parent then
        nestedSet t.structFields (s.parent.getD "") s.name s
      else t.structFields := by
  by_cases h : s.kind = .field ∧ optTruthy s.parent
  · simp [addSymbol, nestedSet, h]
  · simp only [addSymbol, if_neg h]

@[simp] theorem addAll_nil (t : SymbolTable) : addAll t [] = t := rfl

@[simp] theorem addAll_cons (t : SymbolTable) (s : Symbol) (syms : List Symbol) :
    addAll t (s :: syms) = addAll (addSymbol t s) syms := rfl

theorem addAll_symbols (t : SymbolTable) (syms : List Symbol) :
    (addAll t syms).symbols = setMany t.symbols (symWrites syms) := by
  induction syms generalizing t with
  | nil => rfl
  | cons s syms ih =>
    rw [addAll_cons, ih]
    have hw : symWrites (s :: syms) = (symbolKey s, s) :: symWrites syms := rfl
    rw [hw, setMany_cons, addSymbol_symbols]

theorem addAll_structFields (t : SymbolTable) (syms : List Symbol) :
    (addAll t syms).structFields = nestedSetMany t.structFields (sfWrites syms) := by
  induction syms generalizing t with
  | nil => rfl
  | cons s syms ih =>
    rw [addAll_cons, ih]
    by_cases h : s.kind = .field ∧ optTruthy s.parent
    · have hw : sfWrites (s :: syms) =
          (s.parent.getD "", (s.name, s)) :: sfWrites syms := by
        simp [sfWrites, h]
      rw [hw, nestedSetMany_cons, addSymbol_structFields, if_pos h]
    · have hw : sfWrites (s :: syms) = sfWrites syms := by
        simp [sfWrites, h]
      rw [hw, addSymbol_structFields, if_neg h]

/-- Key-uniqueness invariants of a `SymbolTable`, maintained by `addSymbol`
from the empty table (JavaScript `Map`s cannot hold a key twice). -/
def SymbolTable.WF (t : SymbolTable) : Prop :=
  (mapKeys t.symbols).Nodup ∧ (mapKeys t.structFields).Nodup ∧
    ∀ e ∈ t.structFields, (mapKeys e.2).Nodup

/-! ## Theorems -/

/-- Claim C2: for a document whose entire text is
`typedef struct { id int id string } Bad`, validation produces exactly one
duplicate diagnostic, whose message is exactly
`Duplicate definition of [sq]Bad.id[sq]. First defined at line 1.` (with
`[sq]` the single-quote character), one diagnostic per symbol after the
first in the duplicate group, anchored to the line of the first
definition. -/
theorem C2_duplicate_diagnostic_example :
    validateTextDocument "typedef struct \x7b id int id string \x7d Bad"
        "file:///test.api" defaultSettings =
      [{ range := nodeRange 1 25 2,
         message := "Duplicate definition of " ++ sq ++ "Bad.id" ++ sq ++
           ". First defined at line 1." }] := by
  decide

/-- Claim C7: `loadCacheFromFile` adds no symbols and reports failure
whenever the cache record's version differs from `CACHE_VERSION` or its
timestamp is more than 24 hours old. -/
theorem C7_loadCache_rejects_invalid (d : CacheData) (now : Nat)
    (t : SymbolTable)
    (h : d.version ≠ CACHE_VERSION ∨ now - d.timestamp > CACHE_TTL_MS) :
    loadCacheFromFile d now t = (false, t) := by
  unfold loadCacheFromFile
  rcases h with h | h
  · simp [h]
  · rcases eq_or_ne d.version CACHE_VERSION with hv | hv
    · simp [hv, h, if_pos]
    · simp [hv]

/-- Witness for C7 at a concrete stale record. -/
theorem C7_loadCache_rejects_invalid_witness :
    loadCacheFromFile { version := "1.0.0", timestamp := 0, symbols := [] }
        (CACHE_TTL_MS + 1) SymbolTable.empty = (false, SymbolTable.empty) :=
  C7_loadCache_rejects_invalid _ _ _ (Or.inr (by decide))

/-- Claim C10 (part of): the published diagnostics list never exceeds
`maxNumberOfProblems`; it is a prefix of the untruncated diagnostics (the
first ones, in order); the default limit is 100. -/
theorem C10_diagnostics_limited (text uri : String)
    (settings : ApiLanguageServerSettings) :
    (validateTextDocument text uri settings).length ≤
        settings.maxNumberOfProblems ∧
      (∃ rest, rawDiagnostics text uri =
        validateTextDocument text uri settings ++ rest) ∧
      defaultSettings.maxNumberOfProblems = 100 := by
  unfold validateTextDocument limitDiagnostics
  refine ⟨?_, ?_, rfl⟩
  · split
    · simp [List.length_take_le]
    · omega
  · split
    · exact ⟨(rawDiagnostics text uri).drop settings.maxNumberOfProblems,
        (List.take_append_drop _ _).symm⟩
    · exact ⟨[], by simp⟩

/-- Claim C4 (amended): re-running `collect` on the same program into the
same table leaves the symbol map and the struct-field index unchanged (the
duplicate-report map is not left unchanged — see `C4_counterexample`). -/
theorem C4_amended (p : Program) (uri : String) (T : SymbolTable)
    (h : T.WF) :
    (collect p uri (collect p uri T)).symbols = (collect p uri T).symbols ∧
      (collect p uri (collect p uri T)).structFields =
        (collect p uri T).structFields := by
  obtain ⟨h1, h2, h3⟩ := h
  constructor
  · simp only [collect, addAll_symbols]
    exact setMany_idem _ _ h1
  · simp only [collect, addAll_structFields]
    exact nestedSetMany_idem _ _ h2 h3

/-- A small concrete program (`typedef struct { id int } A` as an AST),
used to instantiate theorems with hypotheses. -/
def egField : FieldDefinition :=
  { fieldType :=
      { name := "int", isBuiltin := true, start := 0, «end» := 0,
        line := 1, column := 1 },
    name := { name := "id", start := 0, «end» := 0, line := 1, column := 1 },
    start := 0, «end» := 0, line := 1, column := 1 }

def egTypedef : TypedefStatement :=
  { structDef := some
      { fields := [egField], start := 0, «end» := 0, line := 1, column := 1 },
    enumDef := none,
    name := { name := "A", start := 0, «end» := 0, line := 1, column := 1 },
    start := 0, «end» := 0, line := 1, column := 1 }

def egProgram : Program :=
  { body := [.typedefStmt egTypedef], start := 0, «end» := 0,
    line := 1, column := 1 }

/-- Witness for C4 (amended) at a concrete program and the empty table. -/
theorem C4_amended_witness :
    (collect egProgram "file:///a.api"
        (collect egProgram "file:///a.api" SymbolTable.empty)).symbols =
      (collect egProgram "file:///a.api" SymbolTable.empty).symbols ∧
    (collect egProgram "file:///a.api"
        (collect egProgram "file:///a.api" SymbolTable.empty)).structFields =
      (collect egProgram "file:///a.api" SymbolTable.empty).structFields :=
  C4_amended egProgram "file:///a.api" SymbolTable.empty
    ⟨by simp [SymbolTable.empty], by simp [SymbolTable.empty],
     by simp [SymbolTable.empty]⟩

/-- Adding symbols whose keys are fresh and pairwise distinct appends them
to the symbol map in order. -/
theorem addAll_symbols_append (t : SymbolTable) (syms : List Symbol) :
    (∀ s ∈ syms, symbolKey s ∉ mapKeys t.symbols) →
    (syms.map symbolKey).Nodup →
    (addAll t syms).symbols = t.symbols ++ symWrites syms := by
  induction syms generalizing t with
  | nil => intro _ _; simp [symWrites]
  | cons s syms ih =>
    intro hdisj hnd
    have hset : (addSymbol t s).symbols = t.symbols ++ [(symbolKey s, s)] := by
      rw [addSymbol_symbols, mapSet_of_not_mem _ _ _ (hdisj s (by simp))]
    have hkeys : mapKeys (addSymbol t s).symbols =
        mapKeys t.symbols ++ [symbolKey s] := by
      rw [hset]
      simp [mapKeys]
    simp only [List.map_cons, List.nodup_cons] at hnd
    rw [addAll_cons, ih (addSymbol t s) ?_ hnd.2]
    · rw [hset, List.append_assoc]
      rfl
    · intro s' hs'
      rw [hkeys]
      simp only [List.mem_append, List.mem_singleton]
      push_neg
      refine ⟨hdisj s' (List.mem_cons_of_mem _ hs'), ?_⟩
      intro hcontra
      exact hnd.1 (hcontra ▸ List.mem_map_of_mem symbolKey hs')

/-- Claim C6 (amended): a save → load round trip with matching version and
within the TTL reports success and reproduces the (name, kind, location)
triples — in order — provided the table's bare symbol names are pairwise
distinct; every loaded symbol has `parent = none` (`parent` is not
serialized — see `C6_counterexample`). -/
theorem C6_amended (T : SymbolTable) (now later : Nat)
    (hfresh : later - now ≤ CACHE_TTL_MS)
    (hnames : (T.getAllSymbols.map Symbol.name).Nodup) :
    (loadCacheFromFile (saveCacheToFile T now) later SymbolTable.empty).1 = true ∧
    (loadCacheFromFile (saveCacheToFile T now) later
          SymbolTable.empty).2.getAllSymbols.map
        (fun s => (s.name, s.kind, s.location)) =
      T.getAllSymbols.map (fun s => (s.name, s.kind, s.location)) ∧
    ∀ s ∈ (loadCacheFromFile (saveCacheToFile T now) later
        SymbolTable.empty).2.getAllSymbols, s.parent = none := by
  have hv : (saveCacheToFile T now).version = CACHE_VERSION := rfl
  have hload : loadCacheFromFile (saveCacheToFile T now) later SymbolTable.empty =
      (true, addAll SymbolTable.empty
        ((saveCacheToFile T now).symbols.map cacheSymbolToSymbol)) := by
    rw [loadCacheFromFile, if_neg (by simp [hv]), if_neg (by
      simp only [saveCacheToFile]
      omega)]
  have hsyms : (saveCacheToFile T now).symbols.map cacheSymbolToSymbol =
      T.getAllSymbols.map (fun s =>
        { name := s.name, kind := s.kind, location := s.location,
          documentation := s.documentation, detail := s.detail,
          parent := none, type := none : Symbol }) := by
    simp [saveCacheToFile, cacheSymbolToSymbol, List.map_map, Function.comp]
  have hkeys : (T.getAllSymbols.map (fun s =>
      ({ name := s.name, kind := s.kind, location := s.location,
         documentation := s.documentation, detail := s.detail,
         parent := none, type := none : Symbol }))).map symbolKey =
      T.getAllSymbols.map Symbol.name := by
    simp [List.map_map, Function.comp, symbolKey]
  have happ := addAll_symbols_append SymbolTable.empty
    ((saveCacheToFile T now).symbols.map cacheSymbolToSymbol)
    (by intro s hs; simp [SymbolTable.empty, mapKeys])
    (by rw [hsyms, hkeys]; exact hnames)
  have hall : (addAll SymbolTable.empty
      ((saveCacheToFile T now).symbols.map cacheSymbolToSymbol)).getAllSymbols =
      (saveCacheToFile T now).symbols.map cacheSymbolToSymbol := by
    rw [SymbolTable.getAllSymbols, happ]
    simp [SymbolTable.empty, symWrites, List.map_map, Function.comp]
  have hloadsnd : (loadCacheFromFile (saveCacheToFile T now) later
      SymbolTable.empty).2 =
      addAll SymbolTable.empty
        ((saveCacheToFile T now).symbols.map cacheSymbolToSymbol) := by
    rw [hload]
  refine ⟨by rw [hload], ?_, ?_⟩
  · rw [hloadsnd, hall, hsyms, List.map_map]
    rfl
  · intro s hs
    rw [hloadsnd, hall, hsyms] at hs
    obtain ⟨x, _, hx⟩ := List.mem_map.1 hs
    rw [← hx]

/-- Witness for C6 (amended) at a one-symbol table. -/
theorem C6_amended_witness :
    (loadCacheFromFile
        (saveCacheToFile (addAll SymbolTable.empty
          [{ name := "id", kind := .field,
             location := { uri := "file:///a.api", range := nodeRange 1 1 2 },
             parent := some "A" }]) 100) 200 SymbolTable.empty).1 = true ∧
    (loadCacheFromFile
        (saveCacheToFile (addAll SymbolTable.empty
          [{ name := "id", kind := .field,
             location := { uri := "file:///a.api", range := nodeRange 1 1 2 },
             parent := some "A" }]) 100) 200
          SymbolTable.empty).2.getAllSymbols.map
        (fun s => (s.name, s.kind, s.location)) =
      (addAll SymbolTable.empty
          [{ name := "id", kind := .field,
             location := { uri := "file:///a.api", range := nodeRange 1 1 2 },
             parent := some "A" }]).getAllSymbols.map
        (fun s => (s.name, s.kind, s.location)) ∧
    ∀ s ∈ (loadCacheFromFile
        (saveCacheToFile (addAll SymbolTable.empty
          [{ name := "id", kind := .field,
             location := { uri := "file:///a.api", range := nodeRange 1 1 2 },
             parent := some "A" }]) 100) 200
          SymbolTable.empty).2.getAllSymbols, s.parent = none :=
  C6_amended _ 100 200 (by decide) (by decide)

/-! Emission-shape lemmas for the collector, used by C5. -/

theorem symbolsOfField_kind (uri : String) (ctx : Option String)
    (f : FieldDefinition) : ∀ s ∈ symbolsOfField uri ctx f, s.kind = .field := by
  intro s hs
  unfold symbolsOfField at hs
  split at hs
  · simp only [List.mem_singleton] at hs
    subst hs
    rfl
  · simp at hs

theorem symbolsOfEnumValue_kind (uri : String) (ctx : Option String)
    (v : EnumValue) : ∀ s ∈ symbolsOfEnumValue uri ctx v, s.kind = .enumValue := by
  intro s hs
  unfold symbolsOfEnumValue at hs
  split at hs
  · simp only [List.mem_singleton] at hs
    subst hs
    rfl
  · simp at hs

theorem symbolsOfEnumDefinition_shape (uri : String) (ctx : Option String)
    (e : EnumDefinition) :
    ∀ s ∈ symbolsOfEnumDefinition uri ctx e,
      (s.kind = .enum ∧ s.parent = none) ∨ s.kind = .enumValue := by
  intro s hs
  unfold symbolsOfEnumDefinition at hs
  rcases List.mem_append.1 hs with hs | hs
  · split at hs
    · simp only [List.mem_singleton] at hs
      subst hs
      exact Or.inl ⟨rfl, rfl⟩
    · simp at hs
  · obtain ⟨v, _, hv⟩ := List.mem_flatMap.1 hs
    exact Or.inr (symbolsOfEnumValue_kind uri ctx v s hv)

theorem symbolsOfApiBody_kind (uri : String) (ctx : Option String)
    (b : ApiBodyStatement) : ∀ s ∈ symbolsOfApiBody uri ctx b, s.kind = .field := by
  intro s hs
  cases b with
  | input st =>
    cases hr : st.structRef with
    | typeRef t => simp [symbolsOfApiBody, hr] at hs
    | inline isd =>
      simp only [symbolsOfApiBody, hr] at hs
      obtain ⟨f, _, hf⟩ := List.mem_flatMap.1 hs
      exact symbolsOfField_kind uri ctx f s hf
  | output st =>
    cases hr : st.structRef with
    | typeRef t => simp [symbolsOfApiBody, hr] at hs
    | inline isd =>
      simp only [symbolsOfApiBody, hr] at hs
      obtain ⟨f, _, hf⟩ := List.mem_flatMap.1 hs
      exact symbolsOfField_kind uri ctx f s hf
  | extract st => simp [symbolsOfApiBody] at hs

theorem symbolsOfApi_shape (uri : String) (ctx : Option String)
    (a : ApiDefinition) :
    ∀ s ∈ symbolsOfApi uri ctx a,
      (s.kind = .api ∧ s.parent = none) ∨ s.kind = .field := by
  intro s hs
  rcases List.mem_cons.1 hs with hs | hs
  · subst hs
    exact Or.inl ⟨rfl, rfl⟩
  · obtain ⟨b, _, hb⟩ := List.mem_flatMap.1 hs
    exact Or.inr (symbolsOfApiBody_kind uri ctx b s hb)

theorem symbolsOfApiList_shape (uri : String) (ctx : Option String)
    (al : ApiListDefinition) :
    ∀ s ∈ symbolsOfApiList uri ctx al,
      (s.kind = .apilist ∧ s.parent = none) ∨ s.kind = .api ∨
        s.kind = .field := by
  intro s hs
  rcases List.mem_cons.1 hs with hs | hs
  · subst hs
    exact Or.inl ⟨rfl, rfl⟩
  · obtain ⟨api, _, hapi⟩ := List.mem_flatMap.1 hs
    rcases List.mem_cons.1 hapi with hapi | hapi
    · subst hapi
      exact Or.inr (Or.inl rfl)
    · obtain ⟨b, _, hb⟩ := List.mem_flatMap.1 hapi
      exact Or.inr (Or.inr (symbolsOfApiBody_kind uri ctx b s hb))

theorem symbolsOfTypedef_shape (uri : String) (t : TypedefStatement) :
    ∀ s ∈ symbolsOfTypedef uri t,
      ((s.kind = .struct ∨ s.kind = .enum) ∧ s.parent = none) ∨
        s.kind = .field ∨ s.kind = .enumValue := by
  intro s hs
  unfold symbolsOfTypedef at hs
  split at hs
  · rcases List.mem_cons.1 hs with hs | hs
    · subst hs
      exact Or.inl ⟨Or.inl rfl, rfl⟩
    · obtain ⟨f, _, hf⟩ := List.mem_flatMap.1 hs
      exact Or.inr (Or.inl (symbolsOfField_kind uri _ f s hf))
  · split at hs
    · rcases List.mem_cons.1 hs with hs | hs
      · subst hs
        exact Or.inl ⟨Or.inr rfl, rfl⟩
      · rcases symbolsOfEnumDefinition_shape uri _ _ s hs with ⟨hk, hp⟩ | hk
        · exact Or.inl ⟨Or.inr hk, hp⟩
        · exact Or.inr (Or.inr hk)
    · simp at hs

/-- Claim C5 (amended): every Struct, Enum or ApiList symbol the collector
produces carries no parent and is therefore stored under its bare name by
`addSymbol`; Api symbols are keyed bare only at top level — an api inside
an apilist carries `parent = apilist name` and is keyed
`apilist.uri` (see `C5_counterexample`). -/
theorem C5_amended (p : Program) (uri : String) (s : Symbol)
    (hs : s ∈ collectSymbols p uri)
    (hk : s.kind = .struct ∨ s.kind = .enum ∨ s.kind = .apilist) :
    s.parent = none ∧ symbolKey s = s.name := by
  have hparent : s.parent = none := by
    obtain ⟨st, _, hst⟩ := List.mem_flatMap.1 hs
    cases st with
    | typedefStmt t =>
      rcases symbolsOfTypedef_shape uri t s hst with ⟨_, hp⟩ | hkind
      · exact hp
      · rcases hk with h | h | h <;> rcases hkind with hkd | hkd <;>
          rw [hkd] at h <;> cases h
    | apiDef a =>
      rcases symbolsOfApi_shape uri none a s hst with ⟨hkd, hp⟩ | hkd
      · exact hp
      · rcases hk with h | h | h <;> rw [hkd] at h <;> cases h
    | apiListDef al =>
      rcases symbolsOfApiList_shape uri none al s hst with ⟨_, hp⟩ | hkd | hkd
      · exact hp
      · rcases hk with h | h | h <;> rw [hkd] at h <;> cases h
      · rcases hk with h | h | h <;> rw [hkd] at h <;> cases h
    | enumDef e =>
      rcases symbolsOfEnumDefinition_shape uri none e s hst with ⟨_, hp⟩ | hkd
      · exact hp
      · rcases hk with h | h | h <;> rw [hkd] at h <;> cases h
    | includeStmt i => simp [symbolsOfStatement] at hst
    | setStmt st => simp [symbolsOfStatement] at hst
  exact ⟨hparent, by simp [symbolKey, hparent]⟩

/-- The Struct symbol the collector emits for `egProgram`. -/
def egStructSymbol : Symbol :=
  { name := "A", kind := .struct,
    location := { uri := "file:///a.api", range := nodeRange 1 1 1 },
    detail := some "struct A",
    documentation := some "Struct definition for A" }

/-- Witness for C5 (amended) at a concrete program and symbol. -/
theorem C5_amended_witness :
    egStructSymbol.parent = none ∧
      symbolKey egStructSymbol = egStructSymbol.name :=
  C5_amended egProgram "file:///a.api" egStructSymbol (by decide)
    (Or.inl rfl)

/-! Erasure of inline-struct fields, for C3. -/

/-- Drop every field list of an `InlineStructDefinition` inside an API-body
statement. -/
def eraseInlineABS : ApiBodyStatement → ApiBodyStatement
  | .input s =>
    .input { s with structRef :=
      match s.structRef with
      | .typeRef t => .typeRef t
      | .inline isd => .inline { isd with fields := [] } }
  | .output s =>
    .output { s with structRef :=
      match s.structRef with
      | .typeRef t => .typeRef t
      | .inline isd => .inline { isd with fields := [] } }
  | .extract s => .extract s

def eraseInlineApi (a : ApiDefinition) : ApiDefinition :=
  { a with body := a.body.map eraseInlineABS }

def eraseInlineStmt : Statement → Statement
  | .apiDef a => .apiDef (eraseInlineApi a)
  | .apiListDef al => .apiListDef { al with apis := al.apis.map eraseInlineApi }
  | st => st

/-- Erase the fields of every inline (non-typedef) struct of a program. -/
def eraseInlineFields (p : Program) : Program :=
  { p with body := p.body.map eraseInlineStmt }

theorem flatMap_congr_fun {α β : Type} (l : List α) (f g : α → List β)
    (h : ∀ a, f a = g a) : l.flatMap f = l.flatMap g := by
  induction l with
  | nil => rfl
  | cons a l ih => simp [ih, h a]

theorem symbolsOfField_ctx_none (uri : String) (f : FieldDefinition) :
    symbolsOfField uri none f = [] := rfl

theorem flatMap_field_ctx_none (uri : String) (fs : List FieldDefinition) :
    fs.flatMap (symbolsOfField uri none) = [] := by
  induction fs with
  | nil => rfl
  | cons f fs ih => simp [ih, symbolsOfField_ctx_none]

theorem symbolsOfApiBody_erase (uri : String) (b : ApiBodyStatement) :
    symbolsOfApiBody uri none (eraseInlineABS b) = symbolsOfApiBody uri none b := by
  cases b with
  | input st =>
    cases hr : st.structRef with
    | typeRef t => simp [eraseInlineABS, symbolsOfApiBody, hr]
    | inline isd =>
      simp [eraseInlineABS, symbolsOfApiBody, hr, symbolsOfInlineStruct,
        flatMap_field_ctx_none]
  | output st =>
    cases hr : st.structRef with
    | typeRef t => simp [eraseInlineABS, symbolsOfApiBody, hr]
    | inline isd =>
      simp [eraseInlineABS, symbolsOfApiBody, hr, symbolsOfInlineStruct,
        flatMap_field_ctx_none]
  | extract st => rfl

theorem symbolsOfApi_erase (uri : String) (a : ApiDefinition) :
    symbolsOfApi uri none (eraseInlineApi a) = symbolsOfApi uri none a := by
  unfold symbolsOfApi eraseInlineApi
  simp [List.flatMap_map, Function.comp, symbolsOfApiBody_erase]

theorem symbolsOfStatement_erase (uri : String) (st : Statement) :
    symbolsOfStatement uri (eraseInlineStmt st) = symbolsOfStatement uri st := by
  cases st with
  | apiDef a => exact symbolsOfApi_erase uri a
  | apiListDef al =>
    unfold symbolsOfStatement eraseInlineStmt
    unfold symbolsOfApiList
    simp only [List.flatMap_map]
    congr 1
    apply flatMap_congr_fun
    intro api
    simp [eraseInlineApi, List.flatMap_map, Function.comp,
      symbolsOfApiBody_erase]
  | typedefStmt t => rfl
  | enumDef e => rfl
  | includeStmt i => rfl
  | setStmt s => rfl

/-- Claim C3: symbol collection never creates a Field symbol, and never
adds a duplicate-report entry, for a field declared inside an inline
(non-typedef) struct: erasing all inline-struct fields from a program
changes nothing about the resulting symbol table, whatever the table's
prior contents and however often a field name repeats. -/
theorem C3_inline_fields_inert (p : Program) (uri : String) (T : SymbolTable) :
    collect (eraseInlineFields p) uri T = collect p uri T := by
  unfold collect collectSymbols eraseInlineFields
  simp only [List.flatMap_map]
  congr 1
  apply flatMap_congr_fun
  intro st
  exact symbolsOfStatement_erase uri st

/-! Parser-progress lemmas, for C8. -/

theorem checkTypeTok_ne_eof (ts : List Token) (c : Nat)
    (h : checkTypeTok ts c) : (peekTok ts c).type ≠ .EOF := by
  have h1 : isBuiltinTypeTT (peekTok ts c).type ∨
      (peekTok ts c).type = .IDENTIFIER := by simpa [checkTypeTok] using h
  intro he
  rw [he] at h1
  simp [isBuiltinTypeTT] at h1

theorem checkTypeTok_not_ws (ts : List Token) (c : Nat)
    (h : checkTypeTok ts c) :
    ¬ ((peekTok ts c).type = .WHITESPACE ∨ (peekTok ts c).type = .NEWLINE) := by
  have h1 : isBuiltinTypeTT (peekTok ts c).type ∨
      (peekTok ts c).type = .IDENTIFIER := by simpa [checkTypeTok] using h
  intro hws
  rcases hws with hw | hw <;> rw [hw] at h1 <;> simp [isBuiltinTypeTT] at h1

theorem advanceTok_of_ne_eof (ts : List Token) (c : Nat)
    (h : (peekTok ts c).type ≠ .EOF) : advanceTok ts c = c + 1 := by
  simp [advanceTok, isAtEndTok, h]

theorem advanceTok_ge (ts : List Token) (c : Nat) : c ≤ advanceTok ts c := by
  unfold advanceTok
  split <;> omega

theorem consumeTok_ok (ts : List Token) (c : Nat) (tt : TokenType)
    (m : String) (tok : Token) (c' : Nat)
    (h : consumeTok ts c tt m = .ok (tok, c')) :
    tok = peekTok ts c ∧ c' = c + 1 := by
  unfold consumeTok at h
  split at h
  · cases h
    exact ⟨rfl, rfl⟩
  · cases h

theorem parseIdentifier_ok (ts : List Token) (c : Nat) (nm : Identifier)
    (c' : Nat) (h : parseIdentifier ts c = .ok (nm, c')) : c' = c + 1 := by
  unfold parseIdentifier at h
  rcases hc : consumeTok ts c .IDENTIFIER "Expected identifier" with e | ⟨tok, c1⟩
  · rw [hc] at h
    cases h
  · rw [hc] at h
    have h2 := (consumeTok_ok ts c _ _ tok c1 hc).2
    cases h
    exact h2

theorem parseTypeReference_ok (ts : List Token) (c : Nat) (tr : TypeReference)
    (c' : Nat) (h : parseTypeReference ts c = .ok (tr, c')) :
    checkTypeTok ts c ∧ c' = c + 1 := by
  unfold parseTypeReference at h
  split at h
  · rename_i hct
    cases h
    exact ⟨hct, advanceTok_of_ne_eof ts c (checkTypeTok_ne_eof ts c hct)⟩
  · cases h

theorem parseFieldTypeName_ok (ts : List Token) (c : Nat)
    (fd : FieldDefinition) (c' : Nat)
    (h : parseFieldTypeName ts c = .ok (fd, c')) :
    checkTypeTok ts c ∧ c + 2 ≤ c' := by
  unfold parseFieldTypeName at h
  rcases htr : parseTypeReference ts c with e | ⟨ft, c1⟩
  · rw [htr] at h
    cases h
  · rw [htr] at h
    dsimp only at h
    obtain ⟨hct, hc1⟩ := parseTypeReference_ok ts c ft c1 htr
    rcases hid : parseIdentifier ts c1 with e | ⟨nm, c2⟩
    · rw [hid] at h
      cases h
    · rw [hid] at h
      dsimp only at h
      have hc2 : c2 = c1 + 1 := parseIdentifier_ok ts c1 nm c2 hid
      refine ⟨hct, ?_⟩
      have hge := advanceTok_ge ts c2
      split at h <;> cases h <;> omega

/-- The first conjunct of C8: when the `type name` attempt succeeds, its
result is the result of `parseFieldDefinition` (type-first precedence). -/
theorem parseFieldDefinition_typeFirst (ts : List Token) (c : Nat)
    (fd : FieldDefinition) (c' : Nat)
    (h : parseFieldTypeName ts c = .ok (fd, c')) :
    parseFieldDefinition ts c = (some fd, c') := by
  obtain ⟨hct, _⟩ := parseFieldTypeName_ok ts c fd c' h
  have hws := checkTypeTok_not_ws ts c hct
  unfold parseFieldDefinition
  rw [if_neg hws, if_pos hct, h]

theorem parseFieldDefinition_progress (ts : List Token) (c : Nat)
    (h : (peekTok ts c).type ≠ .EOF) :
    c < (parseFieldDefinition ts c).2 ∧
      ((parseFieldDefinition ts c).1 = none →
        (parseFieldDefinition ts c).2 = c + 1) := by
  have hadv : advanceTok ts c = c + 1 := advanceTok_of_ne_eof ts c h
  unfold parseFieldDefinition
  by_cases hws : (peekTok ts c).type = .WHITESPACE ∨ (peekTok ts c).type = .NEWLINE
  · simp [hws, hadv]
  · rw [if_neg hws]
    rcases h1 : (if checkTypeTok ts c then parseFieldTypeName ts c
        else .error fuelError) with e | ⟨fd, c1⟩
    · dsimp only
      by_cases hid : checkTok ts c .IDENTIFIER
      · rw [if_pos hid]
        rcases h2 : parseIdentifier ts c with e2 | ⟨nm, c2⟩
        · simp [hadv]
        · dsimp only
          have hc2 : c2 = c + 1 := parseIdentifier_ok ts c nm c2 h2
          by_cases hct1 : checkTypeTok ts c2
          · rw [if_pos hct1]
            rcases h3 : parseTypeReference ts c2 with e3 | ⟨ft, c3⟩
            · simp [hadv]
            · dsimp only
              obtain ⟨_, hc3⟩ := parseTypeReference_ok ts c2 ft c3 h3
              have hge := advanceTok_ge ts c3
              constructor
              · split <;> omega
              · intro hnone
                simp at hnone
          · rw [if_neg hct1]
            simp [hc2]
      · rw [if_neg hid]
        simp [hadv]
    · dsimp only
      have hok : parseFieldTypeName ts c = .ok (fd, c1) := by
        by_cases hct : checkTypeTok ts c
        · rwa [if_pos hct] at h1
        · rw [if_neg hct] at h1
          cases h1
      obtain ⟨_, hc1⟩ := parseFieldTypeName_ok ts c fd c1 hok
      constructor
      · omega
      · intro hnone
        simp at hnone

theorem peekTok_eq_eof_of_ge (ts : List Token) (c : Nat)
    (h : ts.length ≤ c) : peekTok ts c = eofFallbackToken := by
  simp [peekTok, List.getD, List.getElem?_eq_none h]

theorem lt_length_of_ne_eof (ts : List Token) (c : Nat)
    (h : (peekTok ts c).type ≠ .EOF) : c < ts.length := by
  by_contra hge
  push_neg at hge
  rw [peekTok_eq_eof_of_ge ts c hge] at h
  exact h rfl

/-- The third conjunct of C8: the struct-body field loop is insensitive to
its fuel bound once the bound exceeds the remaining token count — i.e. the
loop terminates within `ts.length - c` iterations on every token
sequence. -/
theorem parseStructFields_fuel_indep (ts : List Token) :
    ∀ f1 f2 c, ts.length - c < f1 → ts.length - c < f2 →
      parseStructFields f1 ts c = parseStructFields f2 ts c := by
  intro f1
  induction f1 with
  | zero => intro f2 c h1 h2; omega
  | succ a ih =>
    intro f2 c h1 h2
    cases f2 with
    | zero => omega
    | succ b =>
      by_cases hstop : checkTok ts c .RIGHT_BRACE ∨ isAtEndTok ts c
      · simp [parseStructFields, hstop]
      · have hne : (peekTok ts c).type ≠ .EOF := by
          intro he
          exact hstop (Or.inr (by simp [isAtEndTok, he]))
        have hlt : c < ts.length := lt_length_of_ne_eof ts c hne
        by_cases hcm : isCommentTok (peekTok ts c)
        · show parseStructFields (a + 1) ts c = parseStructFields (b + 1) ts c
          rw [parseStructFields, parseStructFields, if_neg hstop, if_neg hstop,
            if_pos hcm, if_pos hcm, advanceTok_of_ne_eof ts c hne]
          exact ih b (c + 1) (by omega) (by omega)
        · have hprog := (parseFieldDefinition_progress ts c hne).1
          show parseStructFields (a + 1) ts c = parseStructFields (b + 1) ts c
          rw [parseStructFields, parseStructFields, if_neg hstop, if_neg hstop,
            if_neg hcm, if_neg hcm]
          rcases hpf : parseFieldDefinition ts c with ⟨fd?, c1⟩
          have hc1 : c < c1 := by
            rw [hpf] at hprog
            exact hprog
          dsimp only
          rw [ih b c1 (by omega) (by omega)]

/-- Claim C8: `parseFieldDefinition` first attempts the `type name` order
(when that attempt succeeds its result is used); whenever the current token
is not EOF the cursor strictly advances, and when no field is produced it
advances by exactly one token; consequently the struct-body loop's result
is independent of any sufficient fuel bound — it terminates on every token
sequence. -/
theorem C8_parseFieldDefinition_progress :
    (∀ ts c fd c1, parseFieldTypeName ts c = .ok (fd, c1) →
      parseFieldDefinition ts c = (some fd, c1)) ∧
    (∀ ts c, (peekTok ts c).type ≠ .EOF →
      c < (parseFieldDefinition ts c).2 ∧
        ((parseFieldDefinition ts c).1 = none →
          (parseFieldDefinition ts c).2 = c + 1)) ∧
    (∀ ts f1 f2 c, ts.length - c < f1 → ts.length - c < f2 →
      parseStructFields f1 ts c = parseStructFields f2 ts c) :=
  ⟨parseFieldDefinition_typeFirst, parseFieldDefinition_progress,
   parseStructFields_fuel_indep⟩

/-- Witness for C8 at concrete token sequences (`a int }` and a lone `%`),
discharging each hypothesis concretely. -/
theorem C8_witness :
    (0 < (parseFieldDefinition (tokenize "a int") 0).2 ∧
      ((parseFieldDefinition (tokenize "a int") 0).1 = none →
        (parseFieldDefinition (tokenize "a int") 0).2 = 0 + 1)) ∧
    parseStructFields 5 (tokenize "a int \x7d") 0 =
      parseStructFields 9 (tokenize "a int \x7d") 0 := by
  constructor
  · exact C8_parseFieldDefinition_progress.2.1 (tokenize "a int") 0 (by decide)
  · exact C8_parseFieldDefinition_progress.2.2 (tokenize "a int \x7d") 5 9 0
      (by decide) (by decide)

/-! Lexer-progress lemmas, for C9. -/

theorem skipWhitespace_length (i : List Char) (p : LexPos) :
    (skipWhitespace i p).1.length ≤ i.length := by
  induction i generalizing p with
  | nil => simp [skipWhitespace]
  | cons c r ih =>
    by_cases hc : isJsSpace c
    · simp only [skipWhitespace, hc, if_true]
      exact le_trans (ih (stepPos p c)) (by simp)
    · simp [skipWhitespace, hc]

theorem readWhile_length (pred : Char → Bool) (i : List Char) (p : LexPos)
    (acc : String) : (readWhile pred i p acc).2.1.length ≤ i.length := by
  induction i generalizing p acc with
  | nil => simp [readWhile]
  | cons c r ih =>
    by_cases hc : pred c
    · simp only [readWhile, hc, if_true]
      exact le_trans (ih _ _) (by simp)
    · simp [readWhile, hc]

theorem readStringLoop_length (i : List Char) (p : LexPos) (acc : String) :
    (readStringLoop i p acc).2.1.length ≤ i.length := by
  have key : ∀ n (i : List Char) (p : LexPos) (acc : String), i.length ≤ n →
      (readStringLoop i p acc).2.1.length ≤ i.length := by
    intro n
    induction n with
    | zero =>
      intro i p acc hlen
      have hi : i = [] := List.length_eq_zero.1 (by omega)
      subst hi
      simp [readStringLoop]
    | succ m ih =>
      intro i p acc hlen
      cases i with
      | nil => simp [readStringLoop]
      | cons c r =>
        unfold readStringLoop
        by_cases hq : c = '"'
        · simp [hq]
        · rw [if_neg hq]
          by_cases hb : c = '\\'
          · rw [if_pos hb]
            cases r with
            | nil => simp
            | cons c2 r2 =>
              dsimp only
              have := ih r2 (stepPos (stepPos p c) c2) (acc.push c2)
                (by simp at hlen; omega)
              simp only [List.length_cons]
              omega
          · rw [if_neg hb]
            have := ih r (stepPos p c) (acc.push c) (by simp at hlen; omega)
            simp only [List.length_cons]
            omega
  exact key i.length i p acc le_rfl

theorem readLineLoop_length (i : List Char) (p : LexPos) (acc : String) :
    (readLineLoop i p acc).2.1.length ≤ i.length := by
  induction i generalizing p acc with
  | nil => simp [readLineLoop]
  | cons c r ih =>
    by_cases hc : c = '\n'
    · simp [readLineLoop, hc]
    · simp only [readLineLoop, hc, if_false]
      exact le_trans (ih _ _) (by simp)

theorem readBlockLoop_length (i : List Char) (p : LexPos) (acc : String) :
    (readBlockLoop i p acc).2.1.length ≤ i.length := by
  induction i generalizing p acc with
  | nil => simp [readBlockLoop]
  | cons c r ih =>
    by_cases hc : c = '*' ∧ r.head? = some '/'
    · simp only [readBlockLoop, hc, if_true]
      calc r.tail.length ≤ r.length := by
            cases r <;> simp
        _ ≤ (c :: r).length := by simp
    · simp only [readBlockLoop, hc, if_false]
      exact le_trans (ih _ _) (by simp)

theorem readBuiltinLoop_length (i : List Char) (p : LexPos) (acc : String) :
    (readBuiltinLoop i p acc).2.1.length ≤ i.length := by
  induction i generalizing p acc with
  | nil => simp [readBuiltinLoop]
  | cons c r ih =>
    by_cases hc : c = ']' ∧ r.head? = some ']'
    · simp only [readBuiltinLoop, hc, if_true]
      calc r.tail.length ≤ r.length := by
            cases r <;> simp
        _ ≤ (c :: r).length := by simp
    · simp only [readBuiltinLoop, hc, if_false]
      exact le_trans (ih _ _) (by simp)

/-- `nextToken` either returns the EOF token or consumes at least one
character. -/
theorem nextToken_progress (input : List Char) (pos : LexPos) :
    (nextToken input pos).1.type = .EOF ∨
      (nextToken input pos).2.1.length < input.length := by
  have hsl := skipWhitespace_length input pos
  unfold nextToken
  rcases hsw : skipWhitespace input pos with ⟨i', p'⟩
  rw [hsw] at hsl
  cases i' with
  | nil =>
    dsimp only
    exact Or.inl rfl
  | cons c r =>
    right
    dsimp only
    simp only [List.length_cons] at hsl
    by_cases h1 : c = '"'
    · rw [if_pos h1]
      rcases hrs : readStringLoop r (stepPos p' c) "" with ⟨v, r1, p1⟩
      have hr1 : r1.length ≤ r.length := by
        have := readStringLoop_length r (stepPos p' c) ""
        rw [hrs] at this
        exact this
      dsimp only
      split
      · rename_i rr
        simp only [List.length_cons] at hr1
        dsimp only
        omega
      · dsimp only
        omega
    · rw [if_neg h1]
      by_cases h2 : isDigitCh c
      · rw [if_pos h2]
        by_cases h3 : c = '0' ∧ (r.head? = some 'x' ∨ r.head? = some 'X')
        · rw [if_pos h3]
          rcases hrw : readWhile isHexDigitCh r.tail
              (stepPos (stepPos p' c) (r.head?.getD 'x'))
              (("".push c).push (r.head?.getD 'x')) with ⟨v, r1, p1⟩
          have hr1 : r1.length ≤ r.tail.length := by
            have := readWhile_length isHexDigitCh r.tail
              (stepPos (stepPos p' c) (r.head?.getD 'x'))
              (("".push c).push (r.head?.getD 'x'))
            rw [hrw] at this
            exact this
          have hrt : r.tail.length ≤ r.length := by cases r <;> simp
          dsimp only
          omega
        · rw [if_neg h3]
          rcases hrw : readWhile isDigitCh (c :: r) p' "" with ⟨v1, r1, p1⟩
          have hr1 : r1.length ≤ r.length := by
            have h := readWhile_length isDigitCh (c :: r) p' ""
            rw [hrw] at h
            -- the first character is a digit, so the loop consumed it
            have : (readWhile isDigitCh (c :: r) p' "").2.1.length ≤ r.length := by
              simp only [readWhile, h2, if_true]
              exact readWhile_length isDigitCh r (stepPos p' c) ("".push c)
            rw [hrw] at this
            exact this
          dsimp only
          split
          · rename_i rr
            simp only [List.length_cons] at hr1
            rcases hrw2 : readWhile isDigitCh rr (stepPos p1 '.')
                (v1.push '.') with ⟨v2, r3, p3⟩
            have hr3 : r3.length ≤ rr.length := by
              have := readWhile_length isDigitCh rr (stepPos p1 '.') (v1.push '.')
              rw [hrw2] at this
              exact this
            dsimp only
            omega
          · dsimp only
            omega
      · rw [if_neg h2]
        by_cases h4 : isIdentStart c
        · rw [if_pos h4]
          by_cases hh : c = '#'
          · rw [if_pos hh]
            dsimp only
            rcases hrw : readWhile isIdentCh r (stepPos p' c) ("".push '#')
                with ⟨v, r1, p1⟩
            have hr1 : r1.length ≤ r.length := by
              have := readWhile_length isIdentCh r (stepPos p' c) ("".push '#')
              rw [hrw] at this
              exact this
            dsimp only
            omega
          · rw [if_neg hh]
            dsimp only
            have hident : isIdentCh c := by
              have h4' : ('a' ≤ c ∧ c ≤ 'z') ∨ ('A' ≤ c ∧ c ≤ 'Z') ∨
                  c = '_' ∨ c = '#' := by simpa [isIdentStart] using h4
              rcases h4' with h | h | h | h
              · simp [isIdentCh, h]
              · simp [isIdentCh, h]
              · simp [isIdentCh, h]
              · exact absurd h hh
            rcases hrw : readWhile isIdentCh (c :: r) p' "" with ⟨v, r1, p1⟩
            have hr1 : r1.length ≤ r.length := by
              have : (readWhile isIdentCh (c :: r) p' "").2.1.length ≤ r.length := by
                simp only [readWhile, hident, if_true]
                exact readWhile_length isIdentCh r (stepPos p' c) ("".push c)
              rw [hrw] at this
              exact this
            dsimp only
            omega
        · rw [if_neg h4]
          by_cases h5 : c = '/' ∧ r.head? = some '/'
          · rw [if_pos h5]
            rcases hrw : readLineLoop r.tail (stepPos (stepPos p' c) '/') ""
                with ⟨v, r1, p1⟩
            have hr1 : r1.length ≤ r.tail.length := by
              have := readLineLoop_length r.tail (stepPos (stepPos p' c) '/') ""
              rw [hrw] at this
              exact this
            have hrt : r.tail.length ≤ r.length := by cases r <;> simp
            dsimp only
            omega
          · rw [if_neg h5]
            by_cases h6 : c = '/' ∧ r.head? = some '*'
            · rw [if_pos h6]
              rcases hrw : readBlockLoop r.tail (stepPos (stepPos p' c) '*') ""
                  with ⟨v, r1, p1⟩
              have hr1 : r1.length ≤ r.tail.length := by
                have := readBlockLoop_length r.tail (stepPos (stepPos p' c) '*') ""
                rw [hrw] at this
                exact this
              have hrt : r.tail.length ≤ r.length := by cases r <;> simp
              dsimp only
              omega
            · rw [if_neg h6]
              by_cases h7 : c = '[' ∧ r.head? = some '['
              · rw [if_pos h7]
                rcases hrw : readBuiltinLoop r.tail (stepPos (stepPos p' c) '[') ""
                    with ⟨v, r1, p1⟩
                have hr1 : r1.length ≤ r.tail.length := by
                  have := readBuiltinLoop_length r.tail
                    (stepPos (stepPos p' c) '[') ""
                  rw [hrw] at this
                  exact this
                have hrt : r.tail.length ≤ r.length := by cases r <;> simp
                dsimp only
                omega
              · rw [if_neg h7]
                dsimp only
                omega

theorem stepPos_position (p : LexPos) (c : Char) :
    (stepPos p c).position = p.position + 1 := by
  unfold stepPos
  split <;> rfl

theorem tokenizeFuel_props :
    ∀ (fuel : Nat) (input : List Char) (pos : LexPos), input.length < fuel →
      tokenizeFuel fuel input pos ≠ [] ∧
      (tokenizeFuel fuel input pos).getLast?.map Token.type = some .EOF ∧
      ∀ t ∈ (tokenizeFuel fuel input pos).dropLast, t.type ≠ .EOF := by
  intro fuel
  induction fuel with
  | zero => intro input pos h; omega
  | succ m ih =>
    intro input pos h
    rcases hnt : nextToken input pos with ⟨t, r, p⟩
    by_cases ht : t.type = .EOF
    · have heq : tokenizeFuel (m + 1) input pos = [t] := by
        simp only [tokenizeFuel, hnt]
        rw [if_pos ht]
      rw [heq]
      exact ⟨by simp, by simp [ht], by simp⟩
    · have hlen : r.length < input.length := by
        have hp := nextToken_progress input pos
        rw [hnt] at hp
        rcases hp with hp | hp
        · exact absurd hp ht
        · exact hp
      have heq : tokenizeFuel (m + 1) input pos = t :: tokenizeFuel m r p := by
        simp only [tokenizeFuel, hnt]
        rw [if_neg ht]
      obtain ⟨hne, hlast, hdrop⟩ := ih r p (by omega)
      obtain ⟨x, xs, hxx⟩ := List.exists_cons_of_ne_nil hne
      rw [heq, hxx]
      refine ⟨by simp, ?_, ?_⟩
      · rw [List.getLast?_cons_cons]
        rw [hxx] at hlast
        exact hlast
      · intro t' ht'
        rw [List.dropLast_cons₂] at ht'
        rcases List.mem_cons.1 ht' with ht' | ht'
        · rw [ht']
          exact ht
        · rw [hxx] at hdrop
          exact hdrop t' ht'

theorem singleCharType_eq_identifier (c : Char)
    (h : c ∉ ['\x7b', '\x7d', '(', ')', '[', ']', ';', ',', '=']) :
    singleCharType c = .IDENTIFIER := by
  simp only [List.mem_cons, List.mem_singleton] at h
  push_neg at h
  obtain ⟨h1, h2, h3, h4, h5, h6, h7, h8, h9⟩ := h
  simp [singleCharType, h1, h2, h3, h4, h5, h6, h7, h8, h9]

/-- Claim C9: `tokenize` is total — for every input string it returns a
token list whose last token, and only the last, is EOF; and any character
that begins no recognized token form (not whitespace, not a string,
number, identifier or comment opener, not punctuation) is emitted as a
single-character `IDENTIFIER` token rather than raising. -/
theorem C9_tokenize_total :
    (∀ text : String, tokenize text ≠ [] ∧
      (tokenize text).getLast?.map Token.type = some .EOF ∧
      ∀ t ∈ (tokenize text).dropLast, t.type ≠ .EOF) ∧
    (∀ (c : Char) (r : List Char) (pos : LexPos),
      ¬ isJsSpace c → c ≠ '"' → ¬ isDigitCh c → ¬ isIdentStart c →
      c ≠ '/' → c ≠ '[' →
      c ∉ ['\x7b', '\x7d', '(', ')', ']', ';', ',', '='] →
      nextToken (c :: r) pos =
        ({ type := .IDENTIFIER, value := String.singleton c, line := pos.line,
           column := pos.column, start := pos.position,
           «end» := pos.position + 1 }, r, stepPos pos c)) := by
  constructor
  · intro text
    exact tokenizeFuel_props (text.data.length + 1) text.data
      { position := 0, line := 1, column := 1 } (by omega)
  · intro c r pos hsp hq hdig hident hslash hbracket hpunct
    have hstep : skipWhitespace (c :: r) pos = (c :: r, pos) := by
      simp [skipWhitespace, hsp]
    have hsct : singleCharType c = .IDENTIFIER := by
      apply singleCharType_eq_identifier
      simp only [List.mem_cons, List.mem_singleton] at hpunct ⊢
      push_neg at hpunct ⊢
      exact ⟨hpunct.1, hpunct.2.1, hpunct.2.2.1, hpunct.2.2.2.1, hbracket,
        hpunct.2.2.2.2.1, hpunct.2.2.2.2.2.1, hpunct.2.2.2.2.2.2.1,
        hpunct.2.2.2.2.2.2.2⟩
    unfold nextToken
    rw [hstep]
    dsimp only
    rw [if_neg hq, if_neg (by simpa using hdig), if_neg (by simpa using hident),
      if_neg (by intro hh; exact hslash hh.1),
      if_neg (by intro hh; exact hslash hh.1),
      if_neg (by intro hh; exact hbracket hh.1)]
    rw [hsct, stepPos_position]

/-- Witness for C9 at the concrete character `%`. -/
theorem C9_witness :
    nextToken ['%'] { position := 0, line := 1, column := 1 } =
      ({ type := .IDENTIFIER, value := String.singleton '%', line := 1,
         column := 1, start := 0, «end» := 1 }, [],
        stepPos { position := 0, line := 1, column := 1 } '%') :=
  C9_tokenize_total.2 '%' [] { position := 0, line := 1, column := 1 }
    (by decide) (by decide) (by decide) (by decide) (by decide) (by decide)
    (by decide)

/-! ### C1: parse and collection of the builtin-typed token family -/

theorem peekTok_of_drop (ts : List Token) (c : Nat) (x : Token)
    (xs : List Token) (h : ts.drop c = x :: xs) : peekTok ts c = x := by
  induction c generalizing ts with
  | zero =>
    simp only [List.drop_zero] at h
    subst h
    rfl
  | succ c ih =>
    cases ts with
    | nil => simp at h
    | cons a ts => exact ih ts h

theorem drop_succ_of_drop {α : Type} (l : List α) (c : Nat) (x : α)
    (xs : List α) (h : l.drop c = x :: xs) : l.drop (c + 1) = xs := by
  induction c generalizing l with
  | zero =>
    simp only [List.drop_zero] at h
    subst h
    rfl
  | succ c ih =>
    cases l with
    | nil => simp at h
    | cons a l => exact ih l h

theorem drop_add_append {α : Type} (pre : List α) (l : List α) (c : Nat)
    (post : List α) (h : l.drop c = pre ++ post) :
    l.drop (c + pre.length) = post := by
  induction pre generalizing c with
  | nil => simpa using h
  | cons x pre ih =>
    have h1 : l.drop (c + 1) = pre ++ post :=
      drop_succ_of_drop l c x _ (by simpa using h)
    have h2 := ih (c + 1) h1
    have harith : c + (x :: pre).length = c + 1 + pre.length := by
      simp only [List.length_cons]
      omega
    rw [harith]
    exact h2

theorem getLast_append_single {α : Type} (l : List α) (x : α) :
    (l ++ [x]).getLast? = some x := by
  induction l with
  | nil => rfl
  | cons a l ih =>
    rw [List.cons_append, List.getLast?_cons, ih]
    rfl

theorem fieldToksC1_cons (fb : String × BuiltinType)
    (fs : List (String × BuiltinType)) :
    fieldToksC1 (fb :: fs) =
      identTokC1 fb.1 :: builtinTokC1 fb.2 :: fieldToksC1 fs := rfl

theorem fieldToksC1_length (fields : List (String × BuiltinType)) :
    (fieldToksC1 fields).length = 2 * fields.length := by
  induction fields with
  | nil => rfl
  | cons fb fs ih =>
    rw [fieldToksC1_cons]
    simp only [List.length_cons, ih]
    omega

theorem builtinTT_builtin (b : BuiltinType) :
    isBuiltinTypeTT b.tokenType = true := by
  cases b <;> rfl

theorem builtinTT_ne_ident (b : BuiltinType) :
    b.tokenType ≠ TokenType.IDENTIFIER := by
  cases b <;> simp [BuiltinType.tokenType]

theorem builtinTT_ne_eof (b : BuiltinType) :
    b.tokenType ≠ TokenType.EOF := by
  cases b <;> simp [BuiltinType.tokenType]

theorem parseFieldDefinition_fam (ts : List Token) (c : Nat) (f : String)
    (b : BuiltinType)
    (h0 : peekTok ts c = identTokC1 f)
    (h1 : peekTok ts (c + 1) = builtinTokC1 b)
    (h2 : checkTok ts (c + 2) TokenType.SEMICOLON = false) :
    parseFieldDefinition ts c = (some (fdFam f b), c + 2) := by
  have hE0 : isAtEndTok ts c = false := by
    simp [isAtEndTok, h0, identTokC1]
  have hE1 : isAtEndTok ts (c + 1) = false := by
    simp [isAtEndTok, h1, builtinTokC1, builtinTT_ne_eof b]
  have hA0 : advanceTok ts c = c + 1 := by simp [advanceTok, hE0]
  have hA1 : advanceTok ts (c + 1) = c + 2 := by simp [advanceTok, hE1]
  have hCT0 : checkTypeTok ts c = true := by
    simp [checkTypeTok, h0, identTokC1]
  have hCT1 : checkTypeTok ts (c + 1) = true := by
    simp [checkTypeTok, h1, builtinTokC1, builtinTT_builtin b]
  have hCI0 : checkTok ts c TokenType.IDENTIFIER = true := by
    simp [checkTok, hE0, h0, identTokC1]
  have hCI1 : checkTok ts (c + 1) TokenType.IDENTIFIER = false := by
    simp [checkTok, hE1, h1, builtinTokC1, builtinTT_ne_ident b]
  have htr1 : parseTypeReference ts c =
      .ok ({ name := f, isBuiltin := false, start := 0, «end» := 0,
             line := 1, column := 1 }, c + 1) := by
    simp [parseTypeReference, hCT0, h0, hA0, identTokC1, isBuiltinTypeTT]
  obtain ⟨e1, he1⟩ : ∃ e, parseIdentifier ts (c + 1) = .error e := by
    unfold parseIdentifier consumeTok
    rw [hCI1]
    simp
  have hftn : parseFieldTypeName ts c = .error e1 := by
    simp only [parseFieldTypeName, htr1]
    simp [he1]
  have htr2 : parseTypeReference ts (c + 1) =
      .ok ({ name := b.str, isBuiltin := true, start := 0, «end» := 0,
             line := 1, column := 1 }, c + 2) := by
    simp [parseTypeReference, hCT1, h1, hA1, builtinTokC1, builtinTT_builtin b]
  have hpi0 : parseIdentifier ts c =
      .ok ({ name := f, start := 0, «end» := 0, line := 1, column := 1 },
        c + 1) := by
    simp [parseIdentifier, consumeTok, hCI0, h0, identTokC1]
  simp only [parseFieldDefinition, h0, hCT0, hftn, hCI0, hpi0, hCT1, htr2, h2]
  simp [identTokC1, fdFam]

theorem fieldToks_head_not_semi (fs : List (String × BuiltinType))
    (rest : List Token) (ts : List Token) (c : Nat)
    (hd : ts.drop c = fieldToksC1 fs ++
        kwTokC1 TokenType.RIGHT_BRACE "\x7d" :: rest) :
    checkTok ts c TokenType.SEMICOLON = false := by
  cases fs with
  | nil =>
    have hp : peekTok ts c = kwTokC1 TokenType.RIGHT_BRACE "\x7d" :=
      peekTok_of_drop ts c _ _ (by simpa [fieldToksC1] using hd)
    simp [checkTok, isAtEndTok, hp, kwTokC1]
  | cons fb fs =>
    rw [fieldToksC1_cons] at hd
    simp only [List.cons_append] at hd
    have hp : peekTok ts c = identTokC1 fb.1 := peekTok_of_drop ts c _ _ hd
    simp [checkTok, isAtEndTok, hp, identTokC1]

theorem parseStructFields_fam (fields : List (String × BuiltinType)) :
    ∀ (fuel : Nat) (ts : List Token) (c : Nat) (rest : List Token),
      ts.drop c = fieldToksC1 fields ++
          kwTokC1 TokenType.RIGHT_BRACE "\x7d" :: rest →
      fields.length < fuel →
      parseStructFields fuel ts c =
        (fields.map (fun fb => fdFam fb.1 fb.2), c + 2 * fields.length) := by
  induction fields with
  | nil =>
    intro fuel ts c rest hd hfuel
    cases fuel with
    | zero => omega
    | succ fu =>
      have hp : peekTok ts c = kwTokC1 TokenType.RIGHT_BRACE "\x7d" :=
        peekTok_of_drop ts c _ _ (by simpa [fieldToksC1] using hd)
      have hE : isAtEndTok ts c = false := by simp [isAtEndTok, hp, kwTokC1]
      have hRB : checkTok ts c TokenType.RIGHT_BRACE = true := by
        simp [checkTok, hE, hp, kwTokC1]
      simp [parseStructFields, hRB]
  | cons fb fs ih =>
    intro fuel ts c rest hd hfuel
    cases fuel with
    | zero => simp at hfuel
    | succ fu =>
      rw [fieldToksC1_cons] at hd
      simp only [List.cons_append] at hd
      have h0 : peekTok ts c = identTokC1 fb.1 := peekTok_of_drop ts c _ _ hd
      have hd1 := drop_succ_of_drop ts c _ _ hd
      have h1 : peekTok ts (c + 1) = builtinTokC1 fb.2 :=
        peekTok_of_drop ts (c + 1) _ _ hd1
      have hd2 := drop_succ_of_drop ts (c + 1) _ _ hd1
      have h2 := fieldToks_head_not_semi fs rest ts (c + 1 + 1) hd2
      have hfd := parseFieldDefinition_fam ts c fb.1 fb.2 h0 h1
        (by simpa [Nat.add_assoc] using h2)
      have hE0 : isAtEndTok ts c = false := by simp [isAtEndTok, h0, identTokC1]
      have hRB0 : checkTok ts c TokenType.RIGHT_BRACE = false := by
        simp [checkTok, hE0, h0, identTokC1]
      have hCm : isCommentTok (peekTok ts c) = false := by
        simp [isCommentTok, h0, identTokC1]
      have hih := ih fu ts (c + 2) rest (by simpa [Nat.add_assoc] using hd2)
        (by simp only [List.length_cons] at hfuel; omega)
      have hcond : ¬ (checkTok ts c TokenType.RIGHT_BRACE = true ∨
          isAtEndTok ts c = true) := by simp [hRB0, hE0]
      simp only [parseStructFields]
      rw [if_neg hcond, if_neg (by simp [hCm])]
      rw [hfd]
      dsimp only
      rw [hih]
      dsimp only
      have harith : c + 2 + 2 * fs.length = c + 2 * (fb :: fs).length := by
        simp only [List.length_cons]
        omega
      rw [harith, List.map_cons]

theorem tdsTokens_drop3 (fields : List (String × BuiltinType))
    (name : String) :
    (typedefStructTokens fields name).drop 3 =
      fieldToksC1 fields ++ kwTokC1 TokenType.RIGHT_BRACE "\x7d" ::
        [identTokC1 name, kwTokC1 TokenType.EOF ""] := rfl

theorem tdsTokens_length (fields : List (String × BuiltinType))
    (name : String) :
    (typedefStructTokens fields name).length = 2 * fields.length + 6 := by
  simp [typedefStructTokens, fieldToksC1_length]

theorem tdsTokens_dropRB (fields : List (String × BuiltinType))
    (name : String) :
    (typedefStructTokens fields name).drop (3 + 2 * fields.length) =
      kwTokC1 TokenType.RIGHT_BRACE "\x7d" ::
        [identTokC1 name, kwTokC1 TokenType.EOF ""] := by
  have h := drop_add_append (fieldToksC1 fields)
    (typedefStructTokens fields name) 3 _ (tdsTokens_drop3 fields name)
  rwa [fieldToksC1_length] at h

theorem parseStructDefinition_fam (fields : List (String × BuiltinType))
    (name : String) (fuel : Nat) (h : fields.length < fuel) :
    parseStructDefinition fuel (typedefStructTokens fields name) 1 =
      .ok (sdFam fields, 3 + 2 * fields.length + 1) := by
  have hloop := parseStructFields_fam fields fuel
    (typedefStructTokens fields name) 3 [identTokC1 name, kwTokC1 .EOF ""]
    (tdsTokens_drop3 fields name) h
  have hpRB : peekTok (typedefStructTokens fields name)
      (3 + 2 * fields.length) = kwTokC1 TokenType.RIGHT_BRACE "\x7d" :=
    peekTok_of_drop _ _ _ _ (tdsTokens_dropRB fields name)
  have hcRB : checkTok (typedefStructTokens fields name)
      (3 + 2 * fields.length) TokenType.RIGHT_BRACE = true := by
    simp [checkTok, isAtEndTok, hpRB, kwTokC1]
  have hconST : consumeTok (typedefStructTokens fields name) 1
      TokenType.STRUCT ("Expected " ++ sq ++ "struct" ++ sq) =
      .ok (kwTokC1 TokenType.STRUCT "struct", 2) := rfl
  have hconLB : consumeTok (typedefStructTokens fields name) 2
      TokenType.LEFT_BRACE ("Expected " ++ sq ++ "\x7b" ++ sq) =
      .ok (kwTokC1 TokenType.LEFT_BRACE "\x7b", 3) := rfl
  have hconRB : consumeTok (typedefStructTokens fields name)
      (3 + 2 * fields.length) TokenType.RIGHT_BRACE
      ("Expected " ++ sq ++ "\x7d" ++ sq) =
      .ok (kwTokC1 TokenType.RIGHT_BRACE "\x7d",
        3 + 2 * fields.length + 1) := by
    simp [consumeTok, hcRB, hpRB]
  have hp1 : peekTok (typedefStructTokens fields name) 1 =
      kwTokC1 TokenType.STRUCT "struct" := rfl
  simp only [parseStructDefinition, hconST, hconLB, hloop, hconRB]
  simp [sdFam, kwTokC1, hp1]

theorem parseTypedefStatement_fam (fields : List (String × BuiltinType))
    (name : String) (fuel : Nat) (h : fields.length < fuel) :
    parseTypedefStatement fuel (typedefStructTokens fields name) 0 =
      .ok (tdFam fields name, 3 + 2 * fields.length + 1 + 1) := by
  have hsd := parseStructDefinition_fam fields name fuel h
  have hconTD : consumeTok (typedefStructTokens fields name) 0
      TokenType.TYPEDEF ("Expected " ++ sq ++ "typedef" ++ sq) =
      .ok (kwTokC1 TokenType.TYPEDEF "typedef", 1) := rfl
  have hcS : checkTok (typedefStructTokens fields name) 1
      TokenType.STRUCT = true := rfl
  have hpN : peekTok (typedefStructTokens fields name)
      (3 + 2 * fields.length + 1) = identTokC1 name :=
    peekTok_of_drop _ _ _ _
      (drop_succ_of_drop _ _ _ _ (tdsTokens_dropRB fields name))
  have hcN : checkTok (typedefStructTokens fields name)
      (3 + 2 * fields.length + 1) TokenType.IDENTIFIER = true := by
    simp [checkTok, isAtEndTok, hpN, identTokC1]
  have hpi : parseIdentifier (typedefStructTokens fields name)
      (3 + 2 * fields.length + 1) =
      .ok ({ name := name, start := 0, «end» := 0, line := 1, column := 1 },
        3 + 2 * fields.length + 1 + 1) := by
    simp [parseIdentifier, consumeTok, hcN, hpN, identTokC1]
  have hp0 : peekTok (typedefStructTokens fields name) 0 =
      kwTokC1 TokenType.TYPEDEF "typedef" := rfl
  simp only [parseTypedefStatement, hconTD, hcS, hsd, Except.map, if_true]
  rw [hpi]
  simp [tdFam, kwTokC1, hp0]

theorem parseStatement_fam (fields : List (String × BuiltinType))
    (name : String) (fuel : Nat) (h : fields.length < fuel) :
    parseStatement fuel (typedefStructTokens fields name) 0 =
      .ok (some (.typedefStmt (tdFam fields name)),
        3 + 2 * fields.length + 1 + 1) := by
  have htd := parseTypedefStatement_fam fields name fuel h
  have hp0 : (peekTok (typedefStructTokens fields name) 0).type =
      TokenType.TYPEDEF := rfl
  simp only [parseStatement, hp0]
  simp [htd, Except.map]

theorem parseStatements_fam (fields : List (String × BuiltinType))
    (name : String) (fuel : Nat) (h : 2 * fields.length + 6 ≤ fuel) :
    parseStatements fuel (typedefStructTokens fields name) 0 =
      .ok ([.typedefStmt (tdFam fields name)],
        3 + 2 * fields.length + 1 + 1) := by
  cases fuel with
  | zero => omega
  | succ fu =>
    have hp0 : peekTok (typedefStructTokens fields name) 0 =
        kwTokC1 TokenType.TYPEDEF "typedef" := rfl
    have hE0 : isAtEndTok (typedefStructTokens fields name) 0 = false := rfl
    have hskip : ¬ (isCommentTok (peekTok (typedefStructTokens fields name) 0)
        = true ∨
        (peekTok (typedefStructTokens fields name) 0).type =
          TokenType.WHITESPACE ∨
        (peekTok (typedefStructTokens fields name) 0).type =
          TokenType.NEWLINE) := by
      simp [isCommentTok, hp0, kwTokC1]
    have hst := parseStatement_fam fields name fu (by omega)
    cases fu with
    | zero => omega
    | succ fv =>
      have hpEOF : peekTok (typedefStructTokens fields name)
          (3 + 2 * fields.length + 1 + 1) = kwTokC1 TokenType.EOF "" :=
        peekTok_of_drop _ _ _ _
          (drop_succ_of_drop _ _ _ _
            (drop_succ_of_drop _ _ _ _ (tdsTokens_dropRB fields name)))
      have hEend : isAtEndTok (typedefStructTokens fields name)
          (3 + 2 * fields.length + 1 + 1) = true := by
        simp [isAtEndTok, hpEOF, kwTokC1]
      have hinner : parseStatements (fv + 1) (typedefStructTokens fields name)
          (3 + 2 * fields.length + 1 + 1) =
          .ok ([], 3 + 2 * fields.length + 1 + 1) := by
        simp [parseStatements, hEend]
      simp only [parseStatements]
      rw [if_neg (by simp [hE0]), if_neg hskip]
      rw [hst]
      simp [hEend]

theorem tdsTokens_getLast (fields : List (String × BuiltinType))
    (name : String) :
    (typedefStructTokens fields name).getLast? =
      some (kwTokC1 TokenType.EOF "") := by
  have hsplit : typedefStructTokens fields name =
      (kwTokC1 .TYPEDEF "typedef" :: kwTokC1 .STRUCT "struct" ::
        kwTokC1 .LEFT_BRACE "\x7b" ::
        (fieldToksC1 fields ++
          [kwTokC1 .RIGHT_BRACE "\x7d", identTokC1 name])) ++
      [kwTokC1 .EOF ""] := by
    simp [typedefStructTokens]
  rw [hsplit, getLast_append_single]

theorem parseTokens_fam (fields : List (String × BuiltinType))
    (name : String) :
    parseTokens (typedefStructTokens fields name) =
      .ok (progFam fields name) := by
  have hps := parseStatements_fam fields name
    ((typedefStructTokens fields name).length + 1)
    (by rw [tdsTokens_length]; omega)
  simp only [parseTokens, hps]
  rw [tdsTokens_getLast]
  simp [progFam, kwTokC1]

theorem symbolsOfField_fam (uri name : String) (fb : String × BuiltinType)
    (h : name.isEmpty = false) :
    symbolsOfField uri (some name) (fdFam fb.1 fb.2) =
      [fieldSymC1 uri name fb] := by
  simp [symbolsOfField, optTruthy, h, fdFam, fieldSymC1]

theorem flatMap_fdFam (fields : List (String × BuiltinType))
    (name uri : String) (h : name.isEmpty = false) :
    (fields.map (fun fb => fdFam fb.1 fb.2)).flatMap
        (symbolsOfField uri (some name)) =
      fields.map (fun fb => fieldSymC1 uri name fb) := by
  induction fields with
  | nil => rfl
  | cons fb fs ih =>
    simp only [List.map_cons, List.flatMap_cons, ih,
      symbolsOfField_fam uri name fb h]
    rfl

theorem collectSymbols_fam (fields : List (String × BuiltinType))
    (name uri : String) (h : name.isEmpty = false) :
    collectSymbols (progFam fields name) uri =
      structSymC1 uri name :: fields.map (fun fb => fieldSymC1 uri name fb) := by
  have hflat : collectSymbols (progFam fields name) uri =
      symbolsOfStatement uri (.typedefStmt (tdFam fields name)) ++ [] := rfl
  rw [hflat, List.append_nil]
  simp only [symbolsOfStatement, symbolsOfTypedef, tdFam, sdFam]
  rw [flatMap_fdFam fields name uri h]
  simp [structSymC1]

theorem symbolKey_structSymC1 (uri name : String) :
    symbolKey (structSymC1 uri name) = name := rfl

theorem symbolKey_fieldSymC1 (uri name : String) (fb : String × BuiltinType)
    (h : name ≠ "") :
    symbolKey (fieldSymC1 uri name fb) = name ++ "." ++ fb.1 := by
  simp [symbolKey, fieldSymC1, h]

theorem ne_append_dot (name f : String) : name ≠ name ++ "." ++ f := by
  intro h
  have hlen := congrArg String.length h
  rw [String.length_append, String.length_append] at hlen
  have hdot : ".".length = 1 := rfl
  rw [hdot] at hlen
  omega

theorem append_dot_inj (name : String) :
    Function.Injective (fun s => name ++ "." ++ s) := by
  intro s1 s2 h
  have hd := congrArg String.data h
  simp only [String.data_append] at hd
  have hd2 := List.append_cancel_left hd
  exact String.ext hd2

theorem famKeys_nodup (uri name : String)
    (fields : List (String × BuiltinType)) (hname : name ≠ "")
    (hnd : (fields.map Prod.fst).Nodup) :
    ((structSymC1 uri name ::
        fields.map (fun fb => fieldSymC1 uri name fb)).map symbolKey).Nodup := by
  rw [List.map_cons, symbolKey_structSymC1, List.map_map]
  have hkey : (symbolKey ∘ fun fb => fieldSymC1 uri name fb) =
      fun fb : String × BuiltinType => name ++ "." ++ fb.1 := by
    funext fb
    exact symbolKey_fieldSymC1 uri name fb hname
  rw [hkey, List.nodup_cons]
  constructor
  · intro hmem
    simp only [List.mem_map] at hmem
    obtain ⟨fb, _, hfb⟩ := hmem
    exact ne_append_dot name fb.1 hfb.symm
  · have hcomp : (fun fb : String × BuiltinType => name ++ "." ++ fb.1) =
        (fun s => name ++ "." ++ s) ∘ Prod.fst := rfl
    rw [hcomp, ← List.map_map]
    exact hnd.map (append_dot_inj name)

/-- Claim C1 (amended): for every input of the form
`typedef struct \x7b f1 T1 f2 T2 ... \x7d Name` — given at the token
level, with each field written name-first (`fi Ti`), each `Ti` one of the
eight builtin type keywords, `Name` a nonempty identifier and the field
names pairwise distinct — parsing succeeds and collecting the resulting
program into an empty symbol table yields exactly one Struct symbol, named
`Name`, and exactly one Field symbol per listed field, in order, each
with parent `Name`.  (As stated the claim fails when a `Ti` is itself an
identifier: see `C1_counterexample`.) -/
theorem C1_amended (fields : List (String × BuiltinType)) (name uri : String)
    (hname : name.isEmpty = false)
    (hnd : (fields.map Prod.fst).Nodup) :
    ∃ p, parseTokens (typedefStructTokens fields name) = .ok p ∧
      ((collect p uri SymbolTable.empty).getSymbolsOfKind .struct).map
          Symbol.name = [name] ∧
      ((collect p uri SymbolTable.empty).getSymbolsOfKind .field).map
          (fun s => (s.name, s.parent)) =
        fields.map (fun fb => (fb.1, some name)) := by
  have hname' : name ≠ "" := by
    intro h
    rw [h] at hname
    exact absurd hname (by decide)
  have hcs := collectSymbols_fam fields name uri hname
  have hkeys := famKeys_nodup uri name fields hname' hnd
  have hsym : (collect (progFam fields name) uri SymbolTable.empty).symbols =
      symWrites (structSymC1 uri name ::
        fields.map (fun fb => fieldSymC1 uri name fb)) := by
    rw [collect, hcs, addAll_symbols_append]
    · rfl
    · intro s hs
      simp [SymbolTable.empty, mapKeys]
    · exact hkeys
  have hall : (collect (progFam fields name) uri
      SymbolTable.empty).getAllSymbols =
      structSymC1 uri name ::
        fields.map (fun fb => fieldSymC1 uri name fb) := by
    rw [SymbolTable.getAllSymbols, hsym, symWrites, List.map_map]
    simp [Function.comp]
  refine ⟨progFam fields name, parseTokens_fam fields name, ?_, ?_⟩
  · rw [SymbolTable.getSymbolsOfKind, hall]
    have hf : (fields.map (fun fb => fieldSymC1 uri name fb)).filter
        (fun s => s.kind = SymbolKind.struct) = [] := by
      rw [List.filter_eq_nil_iff]
      intro a ha
      simp only [List.mem_map] at ha
      obtain ⟨fb, _, rfl⟩ := ha
      simp [fieldSymC1]
    rw [List.filter_cons_of_pos (by simp [structSymC1]), hf]
    simp [structSymC1]
  · rw [SymbolTable.getSymbolsOfKind, hall]
    have hf2 : (fields.map (fun fb => fieldSymC1 uri name fb)).filter
        (fun s => s.kind = SymbolKind.field) =
        fields.map (fun fb => fieldSymC1 uri name fb) := by
      rw [List.filter_eq_self]
      intro a ha
      simp only [List.mem_map] at ha
      obtain ⟨fb, _, rfl⟩ := ha
      simp [fieldSymC1]
    rw [List.filter_cons_of_neg (by simp [structSymC1]), hf2,
      List.map_map]
    rfl

/-- Witness for C1 (amended) at the token form of
`typedef struct \x7b a int b string \x7d Foo`. -/
theorem C1_amended_witness :
    ("Foo".isEmpty = false ∧
        (([("a", BuiltinType.int), ("b", BuiltinType.string)].map
          Prod.fst).Nodup)) ∧
      (∃ p, parseTokens (typedefStructTokens
            [("a", BuiltinType.int), ("b", BuiltinType.string)] "Foo") =
          .ok p ∧
        ((collect p "file:///t.api" SymbolTable.empty).getSymbolsOfKind
            .struct).map Symbol.name = ["Foo"] ∧
        ((collect p "file:///t.api" SymbolTable.empty).getSymbolsOfKind
            .field).map (fun s => (s.name, s.parent)) =
          [("a", BuiltinType.int), ("b", BuiltinType.string)].map
            (fun fb => (fb.1, some "Foo"))) :=
  ⟨⟨by decide, by decide⟩,
   C1_amended [("a", BuiltinType.int), ("b", BuiltinType.string)] "Foo"
     "file:///t.api" (by decide) (by decide)⟩

/-- Counterexample to claim C1 as stated: the input
`typedef struct { a Foo b Foo } Name` lists two fields with distinct names
`a` and `b` (each typed by the non-builtin type `Foo`), yet the dual-order
field grammar parses each pair type-first, so both parsed fields are named
`Foo`; collecting into an empty table leaves exactly one Field symbol (not
one per listed field) and even a spurious duplicate-report entry. -/
theorem C1_counterexample :
    let text := "typedef struct \x7b a Foo b Foo \x7d Name"
    let tbl := indexDocument text "file:///a.api" SymbolTable.empty
    ((parse text).toOption.bind (fun p =>
        match p.body with
        | [.typedefStmt td] =>
          td.structDef.map (fun sd =>
            (sd.fields.map (fun f => (f.name.name, f.fieldType.name)),
             td.name.name))
        | _ => none) =
      some ([("Foo", "a"), ("Foo", "b")], "Name")) ∧
    (tbl.getSymbolsOfKind .field).map (fun s => (s.name, s.parent)) =
      [("Foo", some "Name")] ∧
    (tbl.getSymbolsOfKind .struct).map (fun s => s.name) = ["Name"] ∧
    tbl.getDuplicates.map (fun e => (e.1, e.2.length)) = [("Name.Foo", 2)] := by
  decide

/-- Counterexample to claim C4 as stated: re-indexing the unchanged
document `typedef struct { id int } A` a second time into the same table
leaves the symbol map and struct-field index unchanged but adds a spurious
entry to the duplicate-report map, so the table is not identical. -/
theorem C4_counterexample :
    let text := "typedef struct \x7b id int \x7d A"
    let t1 := indexDocument text "file:///a.api" SymbolTable.empty
    let t2 := indexDocument text "file:///a.api" t1
    t2 ≠ t1 ∧ t1.getDuplicates = [] ∧
      t2.getDuplicates.map (fun e => (e.1, e.2.length)) = [("A.id", 2)] ∧
      t2.symbols = t1.symbols ∧ t2.structFields = t1.structFields := by
  decide

/-- Counterexample to claim C5 as stated: for `apilist "x" { api "a" { } }`
the child api symbol carries `parent = "x"`, so `addSymbol` stores it under
the key `x.a`; no symbol is stored under the bare URI `a`. -/
theorem C5_counterexample :
    let tbl := indexDocument "apilist \"x\" \x7b api \"a\" \x7b \x7d \x7d"
        "file:///a.api" SymbolTable.empty
    mapGet tbl.symbols "a" = none ∧
      (mapGet tbl.symbols "x.a").map (fun s => (s.name, s.kind, s.parent)) =
        some ("a", SymbolKind.api, some "x") := by
  decide

/-- Counterexample to claim C6 as stated: `saveCacheToFile` serializes only
name/kind/location/documentation/detail, so a Field symbol with
`parent = "A"` comes back from a save → load round trip (matching version,
within the TTL) with no parent: the collection of
(name, kind, parent, location) tuples is not reproduced. -/
theorem C6_counterexample :
    let s : Symbol :=
      { name := "id", kind := .field,
        location := { uri := "file:///a.api", range := nodeRange 1 1 2 },
        detail := some "int id", documentation := some "Field id of type int",
        parent := some "A", type := some "int" }
    let t := addSymbol SymbolTable.empty s
    let r := loadCacheFromFile (saveCacheToFile t 1000) 1000 SymbolTable.empty
    r.1 = true ∧
      t.getAllSymbols.map (fun x => (x.name, x.kind, x.parent, x.location)) =
        [("id", SymbolKind.field, some "A",
          { uri := "file:///a.api", range := nodeRange 1 1 2 })] ∧
      r.2.getAllSymbols.map (fun x => (x.name, x.kind, x.parent, x.location)) =
        [("id", SymbolKind.field, none,
          { uri := "file:///a.api", range := nodeRange 1 1 2 })] := by
  decide

end VscodeApi
